import Mathlib

/-!
# parse-cli: the compatibility probe of `main.go` and the deploy download/install pipeline

Shallow embedding of `src/main.go` (`main`, `checkIfSupported`) together with the
Go library routines it calls (`strings.Join`, `url.Values.Set`, `url.Values.Encode`,
`url.QueryEscape`, `stackerr.Wrap`), and of the staged download / install pipeline
(`download`, `moveFiles`) exercised by `src/parsecmd/download_test.go`.
-/

set_option autoImplicit false

namespace ParseCli

/-! ## Go library routines used by `checkIfSupported` -/

/-- Go `strings.Join(elems, sep)`: the elements separated by `sep`; empty for no elements. -/
def strings_Join : List String → String → String
  | [], _ => ""
  | [a], _ => a
  | a :: b :: rest, sep => a ++ sep ++ strings_Join (b :: rest) sep

/-- The bytes of a Go string (its UTF-8 encoding), each byte as a natural number. -/
def bytesOf (s : String) : List Nat :=
  s.data.flatMap (fun c => (String.utf8EncodeChar c).map UInt8.toNat)

/-- Go `net/url` `shouldEscape(c, encodeQueryComponent)`: only the unreserved bytes
(letters, digits, `-`, `_`, `.`, `~`) are left as they are. -/
def shouldEscape (c : Nat) : Bool :=
  if (97 ≤ c ∧ c ≤ 122) ∨ (65 ≤ c ∧ c ≤ 90) ∨ (48 ≤ c ∧ c ≤ 57) then false
  else if c = 45 ∨ c = 95 ∨ c = 46 ∨ c = 126 then false
  else true

/-- Go `upperhex[i]` for `upperhex = "0123456789ABCDEF"`. -/
def upperhex (i : Nat) : Char :=
  if i < 10 then Char.ofNat (48 + i) else Char.ofNat (55 + i)

/-- One byte of Go `net/url` `escape(s, encodeQueryComponent)`. -/
def escapeByte (c : Nat) : List Char :=
  if shouldEscape c then
    if c = 32 then ['+'] else ['%', upperhex (c / 16), upperhex (c % 16)]
  else [Char.ofNat c]

/-- Go `url.QueryEscape(s)`. -/
def QueryEscape (s : String) : String :=
  ⟨(bytesOf s).flatMap escapeByte⟩

/-- Go `url.Values` (`map[string][]string`): a finite map kept as an association list
with at most one entry per key. -/
abbrev Values := List (String × List String)

/-- Go `make(url.Values)`. -/
def Values.make : Values := []

/-- Go `v.Set(key, value)`: `v[key] = []string{value}`, replacing what was there. -/
def Values.Set : Values → String → String → Values
  | [], key, value => [(key, [value])]
  | (k, vs) :: rest, key, value =>
    if k = key then (k, [value]) :: rest else (k, vs) :: Values.Set rest key value

/-- Go map read `v[key]`: the stored slice, or the nil slice when the key is absent. -/
def Values.index (v : Values) (key : String) : List String :=
  match v.lookup key with
  | some vs => vs
  | none => []

/-- Lexicographic order on byte sequences. -/
def bytesLess : List Nat → List Nat → Bool
  | _, [] => false
  | [], _ :: _ => true
  | a :: as, b :: bs => if a < b then true else if b < a then false else bytesLess as bs

/-- Go `a < b` on strings: byte-wise lexicographic comparison. -/
def stringLess (a b : String) : Bool := bytesLess (bytesOf a) (bytesOf b)

/-- The keys of the map in increasing order (Go `sort.Strings` over the map's keys). -/
def Values.sortedKeys (v : Values) : List String :=
  (v.map Prod.fst).insertionSort (fun a b => stringLess b a = false)

/-- The loop body of Go `Values.Encode` for one key: every value of the key is written
as `key=value`, preceded by `&` whenever the buffer is not empty. -/
def encodeKey (keyEscaped : String) : List String → String → String
  | [], buf => buf
  | x :: vs, buf =>
    encodeKey keyEscaped vs
      ((if buf.length > 0 then buf ++ "&" else buf) ++ keyEscaped ++ "=" ++ QueryEscape x)

/-- Go `v.Encode()`: the "URL encoded" form `bar=baz&foo=quux`, sorted by key. -/
def Values.Encode (v : Values) : String :=
  (Values.sortedKeys v).foldl (fun buf k => encodeKey (QueryEscape k) (Values.index v k) buf) ""

/-- Go `error`: `nil` is `none`; a non-nil error carries its message and whether a
stack trace has been attached to it. -/
structure GoError where
  msg : String
  stack : Bool
  deriving DecidableEq

/-- Go `error` interface value. -/
abbrev error := Option GoError

/-- Go `stackerr.Wrap(err)` (facebookgo/stackerr): `nil` stays `nil`, any other error
comes back non-nil with a stack attached. -/
def stackerr_Wrap : error → error
  | none => none
  | some e => some { msg := e.msg, stack := true }

/-- Go `ishex(c)`. -/
def ishex (c : Nat) : Bool :=
  decide ((48 ≤ c ∧ c ≤ 57) ∨ (97 ≤ c ∧ c ≤ 102) ∨ (65 ≤ c ∧ c ≤ 70))

/-- Go `unhex(c)`. -/
def unhex (c : Nat) : Nat :=
  if 48 ≤ c ∧ c ≤ 57 then c - 48
  else if 97 ≤ c ∧ c ≤ 102 then c - 97 + 10
  else if 65 ≤ c ∧ c ≤ 70 then c - 65 + 10
  else 0

/-- Go `net/url` `unescape(s, encodeQueryComponent)` on the bytes of `s`: `%XX` is the
byte with hexadecimal digits `XX`, `+` is a space, anything else stands for itself; a
`%` not followed by two hexadecimal digits is an error (`none`). -/
def unescape : List Nat → Option (List Nat)
  | [] => some []
  | c :: rest =>
    if c = 37 then
      match rest with
      | a :: b :: rest2 =>
        if ishex a && ishex b then (unescape rest2).map (fun t => (unhex a * 16 + unhex b) :: t)
        else none
      | _ => none
    else if c = 43 then (unescape rest).map (fun t => 32 :: t)
    else (unescape rest).map (fun t => c :: t)

/-- Go `url.QueryUnescape(s)`: the bytes of the unescaped string, `none` for an error. -/
def QueryUnescape (s : String) : Option (List Nat) := unescape (bytesOf s)

/-- The bytes of one character. -/
def charBytes (ch : Char) : List Nat := (String.utf8EncodeChar ch).map UInt8.toNat

/-- Go `upperhex[i]` as a byte. -/
def hexByte (i : Nat) : Nat := if i < 10 then 48 + i else 55 + i

/-- Go `strings.Cut(s, sep)` on bytes, for a one-byte separator: the part before the
first `sep` and the part after it (empty when there is no `sep`). -/
def cutAt (sep : Nat) : List Nat → List Nat × List Nat
  | [] => ([], [])
  | c :: rest =>
    if c = sep then ([], rest) else (c :: (cutAt sep rest).1, (cutAt sep rest).2)

/-- The pieces of a byte string between the occurrences of `sep`: what the loop of Go
`parseQuery` obtains by cutting at `&` again and again. -/
def splitOn (sep : Nat) : List Nat → List (List Nat)
  | [] => [[]]
  | c :: rest =>
    if c = sep then [] :: splitOn sep rest
    else
      match splitOn sep rest with
      | [] => [[c]]
      | p :: ps => (c :: p) :: ps

/-- The result of Go `url.ParseQuery`: the map, keys and values as byte strings, and
whether an error was met. -/
structure Parsed where
  m : List (List Nat × List (List Nat))
  err : Bool
  deriving DecidableEq

/-- Go `m[key] = append(m[key], value)`. -/
def addValue : List (List Nat × List (List Nat)) → List Nat → List Nat →
    List (List Nat × List (List Nat))
  | [], key, value => [(key, [value])]
  | (k, vs) :: rest, key, value =>
    if k = key then (k, vs ++ [value]) :: rest else (k, vs) :: addValue rest key value

/-- The loop body of Go `parseQuery` for one `&`-separated piece: a piece holding `;` is
an error, an empty piece is skipped, otherwise the piece is cut at the first `=`, both
halves are unescaped and the value is appended under the key. -/
def parsePiece (p : Parsed) (piece : List Nat) : Parsed :=
  if 59 ∈ piece then { p with err := true }
  else if piece = [] then p
  else
    match unescape (cutAt 61 piece).1, unescape (cutAt 61 piece).2 with
    | some key, some value => { p with m := addValue p.m key value }
    | _, _ => { p with err := true }

/-- Go `url.ParseQuery(query)`. -/
def ParseQuery (query : String) : Parsed :=
  (splitOn 38 (bytesOf query)).foldl parsePiece { m := [], err := false }

/-! ## `checkIfSupported` (src/main.go, lines 117-148) -/

/-- The fields of `http.Request` that `checkIfSupported` fills in. -/
structure Request where
  Method : String
  Path : String
  RawQuery : String
  deriving DecidableEq

/-- The local `type result struct` of `checkIfSupported`. -/
structure result where
  warning : String
  err : error
  deriving DecidableEq

/-- What the goroutine of `checkIfSupported` does with one request: the `result` it
builds from `e.ParseAPIClient.Do(req, nil, &res)` and the time, in nanoseconds after the
`select` starts, at which it sends that value on the channel (`none`: the call never
returns, so nothing is ever sent). -/
structure Reply where
  res : result
  sentAt : Option Nat
  deriving DecidableEq

/-- Go `time.Second`, in nanoseconds. -/
def Second : Nat := 1000000000

/-- The case of the `select` statement that is taken. -/
inductive Fired where
  | result
  | deadline
  deriving DecidableEq

/-- Go `select { case res := <-timeout: ... case <-time.After(time.Second): ... }`:
the case that becomes ready first is taken; when both become ready at the same instant
the runtime picks one, which is the input `tie` (`true`: the receive). -/
def select (sentAt : Option Nat) (tie : Bool) : Fired :=
  match sentAt with
  | none => Fired.deadline
  | some t =>
    if t < Second then Fired.result
    else if Second < t then Fired.deadline
    else if tie then Fired.result else Fired.deadline

/-- The url.Values built at lines 118-121. -/
def supportedValues (version mode : String) (args : List String) : Values :=
  ((Values.make.Set "version" version).Set "mode" mode).Set "other" (strings_Join args " ")

/-- The request built at lines 118-125. -/
def supportedRequest (version mode : String) (args : List String) : Request :=
  { Method := "GET", Path := "supported",
    RawQuery := Values.Encode (supportedValues version mode args) }

/-- Function `checkIfSupported` of main.go; `Do` stands for `e.ParseAPIClient.Do` run in
the goroutine and `tie` resolves a `select` whose two cases are ready together. -/
def checkIfSupported (Do : Request → Reply) (tie : Bool)
    (version mode : String) (args : List String) : String × error :=
  let req := supportedRequest version mode args
  let reply := Do req
  match select reply.sentAt tie with
  | Fired.result => (reply.res.warning, stackerr_Wrap reply.res.err)
  | Fired.deadline => ("", none)

/-! ## `main` (src/main.go, lines 18-115) -/

/-- The fields of `parsecli.Env` that `main` reads or writes. -/
structure Env where
  Root : String
  Server : String
  ErrorStack : Bool
  ParserEmail : String
  /-- Field `Type` of the Go struct (`Type` is reserved in Lean). -/
  Type_ : Int
  deriving DecidableEq

/-- The part of `config.GetProjectConfig()` that `main` reads. -/
structure ProjectConfig where
  /-- Field `Type` of the Go struct (`Type` is reserved in Lean). -/
  Type_ : Int
  ParserEmail : String
  deriving DecidableEq

/-- A `*cobra.Command` built by one of the root-command constructors. -/
structure Command where
  Use : String
  deriving DecidableEq

/-- Everything `main` obtains from outside itself: the process environment, the
constants and functions of package `parsecli`, the root-command constructors, the remote
service behind the probe and the execution of the root command. -/
structure Externals where
  PARSE_ROOT : String
  PARSE_SERVER : String
  PARSE_ERROR_STACK : String
  PARSER_EMAIL : String
  Getwd : Except GoError String
  GetProjectRoot : Env → String → String
  IsProjectDir : String → Bool
  ConfigFromDir : String → Except GoError ProjectConfig
  GetLegacyProjectRoot : Env → String → String
  LegacyParseFormat : Int
  ParseFormat : Int
  HerokuFormat : Int
  DefaultBaseURL : String
  Version : String
  NewParseAPIClient : Env → error
  NewHerokuAPIClient : Env → error
  parseRootCmd : Env → List String × Command
  herokuRootCmd : Env → List String × Command
  Do : Request → Reply
  tie : Bool
  Execute : Command → error

/-- A value handed to `fmt.Fprintln` or `fmt.Fprintf`. -/
inductive Operand where
  | str (s : String)
  | err (e : GoError)
  | int (n : Int)
  deriving DecidableEq

/-- The observable steps of `main`, in the order they happen. -/
inductive Event where
  /-- `fmt.Fprintln(e.Err, a)`: `a` followed by a newline on the error stream. -/
  | Fprintln (a : Operand)
  /-- `fmt.Fprintf(e.Err, format, a)`. -/
  | Fprintf (format : String) (a : Operand)
  | NewParseAPIClient
  | NewHerokuAPIClient
  /-- The call `checkIfSupported(&e, version, mode, command...)`. -/
  | checkIfSupported (version mode : String) (command : List String)
  /-- The call `rootCmd.Execute()` on a non-nil command. -/
  | Execute (rootCmd : Command)
  /-- The call `rootCmd.Execute()` on a nil `rootCmd`. -/
  | nilCommand
  /-- `os.Exit(code)`. -/
  | Exit (code : Nat)
  deriving DecidableEq

/-- Whether the step writes to the error stream. -/
def Event.isWrite : Event → Bool
  | Event.Fprintln _ => true
  | Event.Fprintf _ _ => true
  | _ => false

/-- The writes to the error stream among the steps. -/
def stderrWrites (tr : List Event) : List Event := tr.filter Event.isWrite

/-- Lines 28-38: the initial `parsecli.Env`; `Type` has Go's zero value. -/
def initialEnv (x : Externals) : Env :=
  { Root := x.PARSE_ROOT, Server := x.PARSE_SERVER,
    ErrorStack := decide (x.PARSE_ERROR_STACK = "1"),
    ParserEmail := x.PARSER_EMAIL, Type_ := 0 }

/-- Lines 39-61: find the project root and the project type; an `error` result is the
steps of a run that has exited. -/
def locateProject (x : Externals) (e : Env) : Except (List Event) Env :=
  if e.Root = "" then
    match x.Getwd with
    | Except.error err =>
      Except.error [Event.Fprintf "Failed to get current directory:\n%s\n" (Operand.err err),
        Event.Exit 1]
    | Except.ok cur =>
      let root := x.GetProjectRoot e cur
      if x.IsProjectDir root then
        match x.ConfigFromDir root with
        | Except.error err => Except.error [Event.Fprintln (Operand.err err), Event.Exit 1]
        | Except.ok config =>
          let e1 := { e with Root := root, Type_ := config.Type_ }
          if e1.ParserEmail = "" then Except.ok { e1 with ParserEmail := config.ParserEmail }
          else Except.ok e1
      else
        let e1 := { e with Type_ := x.LegacyParseFormat }
        Except.ok { e1 with Root := x.GetLegacyProjectRoot e1 cur }
  else Except.ok e

/-- The variables declared at lines 86-90 after the `switch` of lines 91-98. -/
structure Dispatch where
  mode : String
  command : List String
  rootCmd : Option Command
  deriving DecidableEq

/-- Lines 86-98: the type switch; it has no default branch, so a type matching no case
leaves the zero values (`""`, the nil slice, the nil pointer). -/
def dispatch (x : Externals) (e : Env) : Dispatch :=
  if e.Type_ = x.LegacyParseFormat ∨ e.Type_ = x.ParseFormat then
    { mode := "parse", command := (x.parseRootCmd e).1, rootCmd := some (x.parseRootCmd e).2 }
  else if e.Type_ = x.HerokuFormat then
    { mode := "heroku", command := (x.herokuRootCmd e).1, rootCmd := some (x.herokuRootCmd e).2 }
  else { mode := "", command := [], rootCmd := none }

/-- The condition of line 100: `len(command) == 0 || command[0] != "update"`. -/
def runsProbe (command : List String) : Bool :=
  command.length == 0 || command.head? != some "update"

/-- Lines 111-114: `rootCmd.Execute()`, exiting with status 1 when it reports an error. -/
def executeRoot (x : Externals) : Option Command → List Event
  | none => [Event.nilCommand]
  | some c =>
    match x.Execute c with
    | some _ => [Event.Execute c, Event.Exit 1]
    | none => [Event.Execute c]

/-- Lines 100-114: the compatibility probe followed by the root command. -/
def probeAndExecute (x : Externals) (d : Dispatch) : List Event :=
  if runsProbe d.command then
    Event.checkIfSupported x.Version d.mode d.command ::
      match checkIfSupported x.Do x.tie x.Version d.mode d.command with
      | (_, some err) => [Event.Fprintln (Operand.err err), Event.Exit 1]
      | (message, none) =>
        if message ≠ "" then Event.Fprintln (Operand.str message) :: executeRoot x d.rootCmd
        else executeRoot x d.rootCmd
  else executeRoot x d.rootCmd

/-- Lines 62-114: from the project-type check to the end of `main`. -/
def mainFromType (x : Externals) (e : Env) : List Event :=
  if e.Type_ ≠ x.LegacyParseFormat ∧ e.Type_ ≠ x.ParseFormat ∧ e.Type_ ≠ x.HerokuFormat then
    [Event.Fprintf "Unknown project type %d.\n" (Operand.int e.Type_), Event.Exit 1]
  else
    let e1 := if e.Server = "" then { e with Server := x.DefaultBaseURL } else e
    Event.NewParseAPIClient ::
      match x.NewParseAPIClient e1 with
      | some err => [Event.Fprintln (Operand.err err), Event.Exit 1]
      | none =>
        if e1.Type_ = x.HerokuFormat then
          Event.NewHerokuAPIClient ::
            match x.NewHerokuAPIClient e1 with
            | some err => [Event.Fprintln (Operand.err err), Event.Exit 1]
            | none => probeAndExecute x (dispatch x e1)
        else probeAndExecute x (dispatch x e1)

/-- Function `main` of main.go: the steps of one run. (The interrupt handler of lines
21-26 only ends the process on a signal and is not part of a run without one.) -/
def main (x : Externals) : List Event :=
  match locateProject x (initialEnv x) with
  | Except.error tr => tr
  | Except.ok e => mainFromType x e

/-- The guard of line 62 lets the type through. -/
def knownType (x : Externals) (t : Int) : Prop :=
  t = x.LegacyParseFormat ∨ t = x.ParseFormat ∨ t = x.HerokuFormat

/-- Whether the step is the compatibility probe or the execution of the root command. -/
def Event.isProbeOrExecute : Event → Bool
  | Event.checkIfSupported _ _ _ => true
  | Event.Execute _ => true
  | Event.nilCommand => true
  | _ => false

/-! ### Sample runs -/

/-- A run environment: `PARSE_ROOT` is set, every collaborator succeeds, the root command
has the given tokens and the remote service behaves as `reply`. -/
def sampleExternals (reply : Reply) (tie : Bool) (command : List String) : Externals :=
  { PARSE_ROOT := "/project", PARSE_SERVER := "", PARSE_ERROR_STACK := "", PARSER_EMAIL := "",
    Getwd := Except.ok "/project",
    GetProjectRoot := fun _ cur => cur,
    IsProjectDir := fun _ => false,
    ConfigFromDir := fun _ => Except.ok { Type_ := 0, ParserEmail := "" },
    GetLegacyProjectRoot := fun _ cur => cur,
    LegacyParseFormat := 0, ParseFormat := 1, HerokuFormat := 2,
    DefaultBaseURL := "https://api.parse.com/1/", Version := "3.0.5",
    NewParseAPIClient := fun _ => none,
    NewHerokuAPIClient := fun _ => none,
    parseRootCmd := fun _ => (command, { Use := "parse" }),
    herokuRootCmd := fun _ => (command, { Use := "heroku" }),
    Do := fun _ => reply, tie := tie,
    Execute := fun _ => none }

/-- The remote service answers after 5 ns with an error and no warning. -/
def errorReply : Reply :=
  { res := { warning := "", err := some { msg := "unauthorized", stack := false } },
    sentAt := some 5 }

/-- The remote service answers after 5 ns without error, with the given warning. -/
def warningReply (w : String) : Reply :=
  { res := { warning := w, err := none }, sentAt := some 5 }

/-- The remote service answers after two seconds, with a warning. -/
def lateReply : Reply :=
  { res := { warning := "please upgrade", err := none }, sentAt := some 2000000000 }

/-- The variables of lines 86-90 for a `deploy` command of a parse project. -/
def deployDispatch : Dispatch :=
  { mode := "parse", command := ["deploy"], rootCmd := some { Use := "parse" } }

/-! ## The deploy pipeline: staged download and install

`download` and `moveFiles` are methods of `downloadCmd`; their file is not among the
sources, which hold only `src/parsecmd/download_test.go`. -/

/-- Asset class of the manifest: cloud code or public hosting. -/
inductive AssetClass where
  | Cloud
  | Public
  deriving DecidableEq

/-- Go `deployFileData` as the test builds it: for each asset class a
`map[string]string` from relative path to a string, kept as an association list in the
order the map is ranged over. -/
structure deployFileData where
  Cloud : List (String × String)
  Public : List (String × String)
  deriving DecidableEq

/-- The map of one asset class. -/
def deployFileData.get (d : deployFileData) : AssetClass → List (String × String)
  | AssetClass.Cloud => d.Cloud
  | AssetClass.Public => d.Public

/-- Go `deployInfo` as the test builds it: the manifest of one release. -/
structure deployInfo where
  Versions : deployFileData
  Checksums : deployFileData
  deriving DecidableEq

/-- The constants `parsecli.CloudDir` and `parsecli.HostingDir`, whose package is not among
the sources. -/
structure Dirs where
  CloudDir : String
  HostingDir : String
  deriving DecidableEq

/-- The subdirectory of an asset class: `CloudDir` for cloud code, `HostingDir` for public
hosting. -/
def classSubdir (k : Dirs) : AssetClass → String
  | AssetClass.Cloud => k.CloudDir
  | AssetClass.Public => k.HostingDir

/-- The file name `dir/<classSubdir>/<path>`. -/
def filePath (dir sub path : String) : String := dir ++ "/" ++ sub ++ "/" ++ path

/-- The file lies under the directory: its name starts with `dir/`. -/
def under (dir name : String) : Prop := (dir ++ "/").data <+: name.data

instance (dir name : String) : Decidable (under dir name) := by
  unfold under
  infer_instance

/-- The regular files of the file system: name to content, a byte sequence. -/
abbrev FileSystem := String → Option (List Nat)

/-- Create or replace the file `name` with content `b`. -/
def FileSystem.write (fs : FileSystem) (name : String) (b : List Nat) : FileSystem :=
  fun n => if n = name then some b else fs n

/-- Take the name `name` out of the file system. -/
def FileSystem.remove (fs : FileSystem) (name : String) : FileSystem :=
  fun n => if n = name then none else fs n

/-- The error taxonomy of the deploy pipeline (spec §7); the Go methods return an `error`,
`nil` (here `none`) on success. -/
inductive DeployError where
  | FetchError (c : AssetClass) (path : String) (msg : String)
  | ChecksumMismatch (c : AssetClass) (path : String)
  | MissingChecksum (c : AssetClass) (path : String)
  | InstallError (path : String)
  deriving DecidableEq

/-- Modelled from the spec: the Fetcher of §4.1, `fetch(class, path, token) -> bytes |
FetchError` (the remote store answers with a payload or with an error message), and the
content digest of §3 (lowercase hexadecimal, MD5-equivalent). -/
structure Remote where
  fetch : AssetClass → String → String → Except String (List Nat)
  digest : List Nat → String

/-- One manifest entry: asset class, relative path, version token. -/
abbrev Entry := AssetClass × String × String

/-- The entries of `versions`, class by class: cloud code first, then public hosting. -/
def entries (v : deployFileData) : List Entry :=
  v.Cloud.map (fun pt => (AssetClass.Cloud, pt.1, pt.2)) ++
    v.Public.map (fun pt => (AssetClass.Public, pt.1, pt.2))

/-- The state a download works on: the file system, and the log of the fetches issued and
of the file names written, oldest first. -/
structure Staging where
  files : FileSystem
  fetched : List Entry
  written : List String

/-- Modelled from the spec: steps 1-4 of the StagingDownloader (§4.2) for one entry, whose
code (`download` of `downloadCmd`) is not among the sources: fetch the payload, write it
to `scratch/<classSubdir>/<path>`, compute the digest of the bytes just written and
compare it with `checksums[class][path]`. -/
def downloadEntry (R : Remote) (k : Dirs) (scratch : String) (checksums : deployFileData)
    (en : Entry) (s : Staging) : Option DeployError × Staging :=
  let s1 : Staging := { s with fetched := s.fetched ++ [en] }
  match R.fetch en.1 en.2.1 en.2.2 with
  | Except.error msg => (some (DeployError.FetchError en.1 en.2.1 msg), s1)
  | Except.ok payload =>
    let name := filePath scratch (classSubdir k en.1) en.2.1
    let s2 : Staging :=
      { s1 with files := s1.files.write name payload, written := s1.written ++ [name] }
    match (checksums.get en.1).lookup en.2.1 with
    | none => (some (DeployError.MissingChecksum en.1 en.2.1), s2)
    | some sum =>
      if R.digest payload = sum then (none, s2)
      else (some (DeployError.ChecksumMismatch en.1 en.2.1), s2)

/-- Modelled from the spec: the loop of the StagingDownloader (§4.2), sequential as in the
reference design of §5; the first failure ends it ("fail immediately ...; abort remaining
downloads"). -/
def downloadAll (R : Remote) (k : Dirs) (scratch : String) (checksums : deployFileData) :
    List Entry → Staging → Option DeployError × Staging
  | [], s => (none, s)
  | en :: rest, s =>
    match downloadEntry R k scratch checksums en s with
    | (none, s1) => downloadAll R k scratch checksums rest s1
    | (some err, s1) => (some err, s1)

/-- Modelled from the spec: `download(scratch, manifest)`, the StagingDownloader of §4.2
(method `download` of `downloadCmd`, called by the test as
`d.download(h.Env, tempDir, d.release)`; its code is not among the sources). -/
def download (R : Remote) (k : Dirs) (scratch : String) (release : deployInfo)
    (s : Staging) : Option DeployError × Staging :=
  downloadAll R k scratch release.Checksums (entries release.Versions) s

/-- What the operating system may refuse during an install: creating the parent
directories of a destination file, and renaming a source onto a destination. -/
structure Refusals where
  mkdirAll : String → Bool
  rename : String → String → Bool

/-- Modelled from the spec: steps 1-2 of the Installer (§4.3) for one entry, whose code
(`moveFiles` of `downloadCmd`) is not among the sources: ensure the parent directory of
the destination exists, then move `scratchRoot/<classSubdir>/<path>` onto
`destRoot/<classSubdir>/<path>`; either step failing is an `InstallError` naming the
offending path, and a failed move leaves the file system as it was. -/
def installEntry (os : Refusals) (k : Dirs) (scratchRoot destRoot : String) (en : Entry)
    (fs : FileSystem) : Option DeployError × FileSystem :=
  let src := filePath scratchRoot (classSubdir k en.1) en.2.1
  let dst := filePath destRoot (classSubdir k en.1) en.2.1
  if os.mkdirAll dst then (some (DeployError.InstallError dst), fs)
  else
    match fs src with
    | none => (some (DeployError.InstallError dst), fs)
    | some b =>
      if os.rename src dst then (some (DeployError.InstallError dst), fs)
      else (none, (fs.remove src).write dst b)

/-- Modelled from the spec: the loop of the Installer (§4.3) over the entries of
`manifest.versions`; the first failure ends it and earlier installs stay. -/
def installAll (os : Refusals) (k : Dirs) (scratchRoot destRoot : String) :
    List Entry → FileSystem → Option DeployError × FileSystem
  | [], fs => (none, fs)
  | en :: rest, fs =>
    match installEntry os k scratchRoot destRoot en fs with
    | (none, fs1) => installAll os k scratchRoot destRoot rest fs1
    | (some err, fs1) => (some err, fs1)

/-- Modelled from the spec: `install(scratchRoot, destRoot, manifest)`, the Installer of
§4.3 (method `moveFiles` of `downloadCmd`, called by the test as
`d.moveFiles(h.Env, tempDir, d.release)` with `h.Env.Root` the project root; its code is
not among the sources). -/
def moveFiles (os : Refusals) (k : Dirs) (destRoot scratchRoot : String)
    (release : deployInfo) (fs : FileSystem) : Option DeployError × FileSystem :=
  installAll os k scratchRoot destRoot (entries release.Versions) fs

/-! ### The scenario of `newDownloadHarness` -/

/-- The directory names used by the scenarios. -/
def harnessDirs : Dirs := { CloudDir := "cloud", HostingDir := "public" }

/-- The release of `newDownloadHarness`. -/
def harnessRelease : deployInfo :=
  { Versions := { Cloud := [("main.js", "version")], Public := [("index.html", "version")] },
    Checksums :=
      { Cloud := [("main.js", "9a0364b9e99bb480dd25e1f0284c8555")],
        Public := [("index.html", "ea46dea1ca5f0b7a728aa3c2a87ae8a1")] } }

/-- The bytes of `content`. -/
def contentBytes : List Nat := [99, 111, 110, 116, 101, 110, 116]

/-- The digest on the two payloads of the harness (their MD5 sums), and a string that is
no digest elsewhere. -/
def harnessDigest (b : List Nat) : String :=
  if b = contentBytes then "9a0364b9e99bb480dd25e1f0284c8555"
  else if b = [1, 1, 2, 3, 5, 8, 13] then "ea46dea1ca5f0b7a728aa3c2a87ae8a1"
  else ""

/-- The remote store of `newDownloadHarness`. Its transport answers a script with the
JSON text of the string `content` and a hosted file with the JSON text of the array
1, 1, 2, 3, 5, 8, 13; the payloads here are the decoded values, the 7 bytes of `content`
and the bytes 1, 1, 2, 3, 5, 8, 13, the ones whose digests are the checksums of the
harness manifest and with which `TestDownload` succeeds. -/
def harnessRemote : Remote :=
  { fetch := fun c _ _ =>
      match c with
      | AssetClass.Cloud => Except.ok contentBytes
      | AssetClass.Public => Except.ok [1, 1, 2, 3, 5, 8, 13],
    digest := harnessDigest }

/-- A file system without files and with nothing logged. -/
def emptyStaging : Staging := { files := fun _ => none, fetched := [], written := [] }

/-- The file an entry is staged at or installed to below `dir`. -/
def target (k : Dirs) (dir : String) (en : Entry) : String :=
  filePath dir (classSubdir k en.1) en.2.1

/-- The two class subdirectories are single, different path components. -/
def DirsOk (k : Dirs) : Prop :=
  '/' ∉ k.CloudDir.data ∧ '/' ∉ k.HostingDir.data ∧ k.CloudDir ≠ k.HostingDir

instance (k : Dirs) : Decidable (DirsOk k) := by
  unfold DirsOk
  infer_instance

/-- The keys of a Go map are pairwise different. -/
def UniqueKeys (m : List (String × String)) : Prop := (m.map Prod.fst).Nodup

instance (m : List (String × String)) : Decidable (UniqueKeys m) := by
  unfold UniqueKeys
  infer_instance

/-- Neither directory lies within the other (nor are they the same directory). -/
def Apart (a b : String) : Prop :=
  ¬ (a ++ "/").data <+: (b ++ "/").data ∧ ¬ (b ++ "/").data <+: (a ++ "/").data

instance (a b : String) : Decidable (Apart a b) := by
  unfold Apart
  infer_instance

/-- What steps 1-4 of the StagingDownloader decide for one entry: `none` when the entry
passes, else the error of the step that fails. -/
def verdict (R : Remote) (checksums : deployFileData) (en : Entry) : Option DeployError :=
  match R.fetch en.1 en.2.1 en.2.2 with
  | Except.error msg => some (DeployError.FetchError en.1 en.2.1 msg)
  | Except.ok payload =>
    match (checksums.get en.1).lookup en.2.1 with
    | none => some (DeployError.MissingChecksum en.1 en.2.1)
    | some sum =>
      if R.digest payload = sum then none
      else some (DeployError.ChecksumMismatch en.1 en.2.1)

/-- The release of the harness with the checksum of `index.html` replaced by the digest
of `content`, which its payload does not have. -/
def badIndexRelease : deployInfo :=
  { Versions := { Cloud := [("main.js", "version")], Public := [("index.html", "version")] },
    Checksums :=
      { Cloud := [("main.js", "9a0364b9e99bb480dd25e1f0284c8555")],
        Public := [("index.html", "9a0364b9e99bb480dd25e1f0284c8555")] } }

/-- An operating system that refuses nothing. -/
def noRefusals : Refusals := { mkdirAll := fun _ => false, rename := fun _ _ => false }

/-- The scratch directory as `TestDownloadMoveFiles` fills it: `content` in both files. -/
def movedScratch : FileSystem :=
  fun n =>
    if n = "/tmp/move_files_1/public/index.html" then some contentBytes
    else if n = "/tmp/move_files_1/cloud/main.js" then some contentBytes
    else none

/-! # Theorems -/

/-! ## The request of the probe -/

theorem supportedValues_eq (version mode : String) (args : List String) :
    supportedValues version mode args =
      [("version", [version]), ("mode", [mode]), ("other", [strings_Join args " "])] := by
  simp [supportedValues, Values.make, Values.Set]

theorem sortedKeys_supported (version mode : String) (args : List String) :
    Values.sortedKeys (supportedValues version mode args) = ["mode", "other", "version"] := by
  rw [supportedValues_eq]
  have h : (["version", "mode", "other"] : List String).insertionSort
      (fun a b => stringLess b a = false) = ["mode", "other", "version"] := by decide
  simpa [Values.sortedKeys] using h

theorem encode_supported (version mode : String) (args : List String) :
    Values.Encode (supportedValues version mode args) =
      "mode=" ++ QueryEscape mode ++ "&other=" ++ QueryEscape (strings_Join args " ")
        ++ "&version=" ++ QueryEscape version := by
  unfold Values.Encode
  rw [sortedKeys_supported, supportedValues_eq]
  have h1 : QueryEscape "mode" = "mode" := by decide
  have h2 : QueryEscape "other" = "other" := by decide
  have h3 : QueryEscape "version" = "version" := by decide
  have l1 : "mode=".length = 5 := by decide
  have l2 : "other".length = 5 := by decide
  simp [Values.index, List.lookup, encodeKey, h1, h2, h3, l1, l2]
  apply String.ext
  simp [String.data_append]

theorem index_supported (version mode : String) (args : List String) (key : String) :
    Values.index (supportedValues version mode args) key =
      if key = "version" then [version] else if key = "mode" then [mode]
      else if key = "other" then [strings_Join args " "] else [] := by
  rw [supportedValues_eq]
  simp only [Values.index, List.lookup]
  by_cases h1 : key = "version"
  · simp [h1]
  · by_cases h2 : key = "mode"
    · simp [h2]
    · by_cases h3 : key = "other"
      · simp [h3]
      · have e1 : (key == "version") = false := by simpa using h1
        have e2 : (key == "mode") = false := by simpa using h2
        have e3 : (key == "other") = false := by simpa using h3
        rw [e1, e2, e3]
        simp [h1, h2, h3]

set_option maxRecDepth 100000 in
theorem escapeByte_chars : ∀ c < 256, ∀ ch ∈ escapeByte c, ch ≠ '&' ∧ ch ≠ '=' := by
  decide

theorem bytesOf_lt (s : String) : ∀ c ∈ bytesOf s, c < 256 := by
  intro c hc
  simp only [bytesOf, List.mem_flatMap, List.mem_map] at hc
  obtain ⟨_, _, u, _, rfl⟩ := hc
  exact u.val.isLt

theorem QueryEscape_separators (s : String) :
    '&' ∉ (QueryEscape s).data ∧ '=' ∉ (QueryEscape s).data := by
  have h : ∀ ch ∈ (QueryEscape s).data, ch ≠ '&' ∧ ch ≠ '=' := by
    intro ch hch
    simp only [QueryEscape, List.mem_flatMap] at hch
    obtain ⟨c, hc, hmem⟩ := hch
    exact escapeByte_chars c (bytesOf_lt s c hc) ch hmem
  exact ⟨fun hm => (h _ hm).1 rfl, fun hm => (h _ hm).2 rfl⟩

set_option maxRecDepth 100000 in
theorem escapeByte_bytes : ∀ c < 256, (escapeByte c).flatMap charBytes =
    if shouldEscape c then (if c = 32 then [43] else [37, hexByte (c / 16), hexByte (c % 16)])
    else [c] := by
  decide

set_option maxRecDepth 100000 in
theorem unreserved_plain : ∀ c < 256, shouldEscape c = false → c ≠ 37 ∧ c ≠ 43 := by
  decide

set_option maxRecDepth 100000 in
theorem hexByte_unhex : ∀ c < 256, ishex (hexByte (c / 16)) = true ∧
    ishex (hexByte (c % 16)) = true ∧
    unhex (hexByte (c / 16)) * 16 + unhex (hexByte (c % 16)) = c := by
  decide

theorem unescape_escaped (c : Nat) (hc : c < 256) (rest : List Nat) :
    unescape ((escapeByte c).flatMap charBytes ++ rest) =
      (unescape rest).map (fun t => c :: t) := by
  rw [escapeByte_bytes c hc]
  by_cases hs : shouldEscape c = true
  · rw [if_pos hs]
    by_cases h32 : c = 32
    · rw [if_pos h32, h32]
      rw [List.singleton_append, unescape.eq_def]
      simp
    · rw [if_neg h32]
      obtain ⟨h1, h2, h3⟩ := hexByte_unhex c hc
      rw [unescape.eq_def]
      simp [h1, h2, h3]
  · rw [if_neg hs]
    have hs' : shouldEscape c = false := by simpa using hs
    obtain ⟨h1, h2⟩ := unreserved_plain c hc hs'
    rw [List.singleton_append, unescape.eq_def]
    simp [h1, h2]

theorem unescape_flatMap : ∀ l : List Nat, (∀ c ∈ l, c < 256) →
    unescape (l.flatMap (fun c => (escapeByte c).flatMap charBytes)) = some l := by
  intro l
  induction l with
  | nil => intro _; rfl
  | cons c rest ih =>
    intro h
    rw [List.flatMap_cons, unescape_escaped c (h c (List.mem_cons_self _ _)),
      ih (fun d hd => h d (List.mem_cons_of_mem _ hd))]
    rfl

theorem QueryUnescape_QueryEscape (s : String) :
    QueryUnescape (QueryEscape s) = some (bytesOf s) := by
  have h := unescape_flatMap (bytesOf s) (bytesOf_lt s)
  unfold QueryUnescape QueryEscape
  have e : bytesOf ⟨(bytesOf s).flatMap escapeByte⟩ =
      (bytesOf s).flatMap (fun c => (escapeByte c).flatMap charBytes) := by
    simp only [bytesOf, charBytes]
    rw [List.flatMap_assoc]
    rfl
  rw [e]
  exact h

theorem strings_Join_data (sep : String) : ∀ elems : List String,
    (strings_Join elems sep).data = List.intercalate sep.data (elems.map String.data) := by
  intro elems
  induction elems with
  | nil => rfl
  | cons a rest ih =>
    cases rest with
    | nil => simp [strings_Join, List.intercalate]
    | cons b rest =>
      simp only [strings_Join, String.data_append, ih]
      simp [List.intercalate]

theorem bytesOf_append (a b : String) : bytesOf (a ++ b) = bytesOf a ++ bytesOf b := by
  simp [bytesOf, String.data_append, List.flatMap_append]

set_option maxRecDepth 100000 in
theorem escapeByte_bytes_plain : ∀ c < 256, ∀ b ∈ (escapeByte c).flatMap charBytes,
    b ≠ 38 ∧ b ≠ 61 ∧ b ≠ 59 := by
  decide

theorem escaped_plain (s : String) :
    ∀ b ∈ bytesOf (QueryEscape s), b ≠ 38 ∧ b ≠ 61 ∧ b ≠ 59 := by
  intro b hb
  have e : bytesOf (QueryEscape s) =
      (bytesOf s).flatMap (fun c => (escapeByte c).flatMap charBytes) := by
    simp only [QueryEscape, bytesOf, charBytes]
    rw [List.flatMap_assoc]
    rfl
  rw [e, List.mem_flatMap] at hb
  obtain ⟨c, hc, hmem⟩ := hb
  exact escapeByte_bytes_plain c (bytesOf_lt s c hc) b hmem

theorem cutAt_append (sep : Nat) : ∀ (k v : List Nat), sep ∉ k →
    cutAt sep (k ++ sep :: v) = (k, v) := by
  intro k
  induction k with
  | nil => intro v _; simp [cutAt]
  | cons c k ih =>
    intro v h
    simp only [List.mem_cons, not_or] at h
    have hc : c ≠ sep := fun e => h.1 e.symm
    simp [cutAt, hc, ih v h.2]

theorem splitOn_none (sep : Nat) : ∀ l : List Nat, sep ∉ l → splitOn sep l = [l] := by
  intro l
  induction l with
  | nil => intro _; rfl
  | cons c l ih =>
    intro h
    simp only [List.mem_cons, not_or] at h
    have hc : c ≠ sep := fun e => h.1 e.symm
    simp [splitOn, hc, ih h.2]

theorem splitOn_append (sep : Nat) : ∀ (l r : List Nat), sep ∉ l →
    splitOn sep (l ++ sep :: r) = l :: splitOn sep r := by
  intro l
  induction l with
  | nil => intro r _; simp [splitOn]
  | cons c l ih =>
    intro r h
    simp only [List.mem_cons, not_or] at h
    have hc : c ≠ sep := fun e => h.1 e.symm
    simp [splitOn, hc, ih r h.2]

theorem parsePiece_pair (p : Parsed) (k : List Nat) (v : String)
    (hk : 59 ∉ k ∧ 61 ∉ k) (hu : unescape k = some k) :
    parsePiece p (k ++ 61 :: bytesOf (QueryEscape v)) =
      { p with m := addValue p.m k (bytesOf v) } := by
  have hv := escaped_plain v
  have h59 : 59 ∉ k ++ 61 :: bytesOf (QueryEscape v) := by
    intro hm
    rcases List.mem_append.mp hm with h | h
    · exact hk.1 h
    · rcases List.mem_cons.mp h with h | h
      · cases h
      · exact (hv 59 h).2.2 rfl
  have hne : k ++ 61 :: bytesOf (QueryEscape v) ≠ [] := by simp
  have hr : unescape (bytesOf (QueryEscape v)) = some (bytesOf v) :=
    QueryUnescape_QueryEscape v
  unfold parsePiece
  rw [if_neg h59, if_neg hne, cutAt_append 61 k _ hk.2]
  simp only [hu, hr]

theorem no_amp_pair (k : List Nat) (v : String) (hk : 38 ∉ k) :
    38 ∉ k ++ 61 :: bytesOf (QueryEscape v) := by
  intro hm
  rcases List.mem_append.mp hm with h | h
  · exact hk h
  · rcases List.mem_cons.mp h with h | h
    · cases h
    · exact (escaped_plain v 38 h).1 rfl

theorem parseQuery_supported (version mode : String) (args : List String) :
    ParseQuery (Values.Encode (supportedValues version mode args)) =
      { m := [(bytesOf "mode", [bytesOf mode]),
              (bytesOf "other", [bytesOf (strings_Join args " ")]),
              (bytesOf "version", [bytesOf version])],
        err := false } := by
  rw [encode_supported]
  have k1 : bytesOf "mode=" = bytesOf "mode" ++ [61] := by decide
  have k2 : bytesOf "&other=" = 38 :: (bytesOf "other" ++ [61]) := by decide
  have k3 : bytesOf "&version=" = 38 :: (bytesOf "version" ++ [61]) := by decide
  have hb : bytesOf ("mode=" ++ QueryEscape mode ++ "&other=" ++
      QueryEscape (strings_Join args " ") ++ "&version=" ++ QueryEscape version) =
      (bytesOf "mode" ++ 61 :: bytesOf (QueryEscape mode)) ++ 38 ::
        ((bytesOf "other" ++ 61 :: bytesOf (QueryEscape (strings_Join args " "))) ++ 38 ::
          (bytesOf "version" ++ 61 :: bytesOf (QueryEscape version))) := by
    simp only [bytesOf_append, k1, k2, k3]
    simp [List.append_assoc]
  unfold ParseQuery
  rw [hb, splitOn_append 38 _ _ (no_amp_pair _ mode (by decide)),
    splitOn_append 38 _ _ (no_amp_pair _ (strings_Join args " ") (by decide)),
    splitOn_none 38 _ (no_amp_pair _ version (by decide))]
  simp only [List.foldl_cons, List.foldl_nil]
  rw [parsePiece_pair _ _ mode (by decide) (by decide),
    parsePiece_pair _ _ (strings_Join args " ") (by decide) (by decide),
    parsePiece_pair _ _ version (by decide) (by decide)]
  have n1 : bytesOf "mode" ≠ bytesOf "other" := by decide
  have n2 : bytesOf "mode" ≠ bytesOf "version" := by decide
  have n3 : bytesOf "other" ≠ bytesOf "version" := by decide
  simp [addValue, n1, n2, n3]

/-- C5: for every version string, mode string and argument list, the request built by
`checkIfSupported` is a GET to the path `supported`; the map behind its query holds
`version`, `mode` and `other` (the arguments joined by single spaces, the empty string
for no argument), each with exactly one value, and no other key; the query string is
that map encoded, `mode=..&other=..&version=..` with query-escaped values, and parsing
it back with `url.ParseQuery` yields exactly these three parameters with these values,
one each, and no error. -/
theorem checkIfSupported_request (version mode : String) (args : List String) :
    (supportedRequest version mode args).Method = "GET" ∧
    (supportedRequest version mode args).Path = "supported" ∧
    (supportedRequest version mode args).RawQuery =
      Values.Encode (supportedValues version mode args) ∧
    (∀ key, Values.index (supportedValues version mode args) key =
      if key = "version" then [version] else if key = "mode" then [mode]
      else if key = "other" then [strings_Join args " "] else []) ∧
    (supportedValues version mode args).map Prod.fst = ["version", "mode", "other"] ∧
    strings_Join [] " " = "" ∧
    (∀ a b rest, strings_Join (a :: b :: rest) " " = a ++ " " ++ strings_Join (b :: rest) " ") ∧
    (supportedRequest version mode args).RawQuery =
      "mode=" ++ QueryEscape mode ++ "&other=" ++ QueryEscape (strings_Join args " ")
        ++ "&version=" ++ QueryEscape version ∧
    (∀ s, '&' ∉ (QueryEscape s).data ∧ '=' ∉ (QueryEscape s).data) ∧
    (∀ a, strings_Join [a] " " = a) ∧
    (strings_Join args " ").data = List.intercalate [' '] (args.map String.data) ∧
    (∀ s, QueryUnescape (QueryEscape s) = some (bytesOf s)) ∧
    ParseQuery (supportedRequest version mode args).RawQuery =
      { m := [(bytesOf "mode", [bytesOf mode]),
              (bytesOf "other", [bytesOf (strings_Join args " ")]),
              (bytesOf "version", [bytesOf version])],
        err := false } ∧
    (supportedRequest "3.0.5" "parse" ["deploy"]).RawQuery
      = "mode=parse&other=deploy&version=3.0.5" ∧
    (supportedRequest "3.0.5" "heroku" ["deploy", "-f", "a&b=c"]).RawQuery
      = "mode=heroku&other=deploy+-f+a%26b%3Dc&version=3.0.5" ∧
    (supportedRequest "3.0.5" "parse" []).RawQuery = "mode=parse&other=&version=3.0.5" ∧
    QueryEscape "a b&c=d/é+%~" = "a+b%26c%3Dd%2F%C3%A9%2B%25~" := by
  refine ⟨rfl, rfl, rfl, index_supported version mode args, ?_, rfl, fun _ _ _ => rfl,
    encode_supported version mode args, QueryEscape_separators, fun _ => rfl,
    strings_Join_data " " args, QueryUnescape_QueryEscape,
    parseQuery_supported version mode args, by decide, by decide, by decide, by decide⟩
  rw [supportedValues_eq]
  rfl

/-! ## The probe inside `main` -/

theorem executeRoot_writes (x : Externals) (c : Option Command) :
    stderrWrites (executeRoot x c) = [] := by
  cases c with
  | none => rfl
  | some c =>
    simp only [executeRoot]
    cases x.Execute c <;> rfl

theorem executeRoot_no_probe (x : Externals) (c : Option Command) (v m : String)
    (a : List String) : Event.checkIfSupported v m a ∉ executeRoot x c := by
  cases c with
  | none => simp [executeRoot]
  | some c =>
    simp only [executeRoot]
    cases x.Execute c <;> simp

theorem executeRoot_some (x : Externals) (c : Command) :
    Event.Execute c ∈ executeRoot x (some c) := by
  simp only [executeRoot]
  cases x.Execute c <;> simp

theorem runsProbe_iff (command : List String) :
    runsProbe command = true ↔ ¬ ∃ rest, command = "update" :: rest := by
  cases command with
  | nil => simp [runsProbe]
  | cons c rest =>
    by_cases h : c = "update"
    · subst h
      simp [runsProbe]
    · simp [runsProbe, h]

theorem probe_on_error (x : Externals) (d : Dispatch) (err : GoError)
    (hrun : runsProbe d.command = true)
    (hfirst : select (x.Do (supportedRequest x.Version d.mode d.command)).sentAt x.tie
      = Fired.result)
    (herr : (x.Do (supportedRequest x.Version d.mode d.command)).res.err = some err) :
    checkIfSupported x.Do x.tie x.Version d.mode d.command =
      ((x.Do (supportedRequest x.Version d.mode d.command)).res.warning,
        some { msg := err.msg, stack := true }) ∧
    probeAndExecute x d =
      [Event.checkIfSupported x.Version d.mode d.command,
       Event.Fprintln (Operand.err { msg := err.msg, stack := true }), Event.Exit 1] := by
  have h1 : checkIfSupported x.Do x.tie x.Version d.mode d.command =
      ((x.Do (supportedRequest x.Version d.mode d.command)).res.warning,
        some { msg := err.msg, stack := true }) := by
    simp [checkIfSupported, hfirst, herr, stackerr_Wrap]
  exact ⟨h1, by simp [probeAndExecute, hrun, h1]⟩

theorem probe_on_deadline (x : Externals) (d : Dispatch)
    (hdead : select (x.Do (supportedRequest x.Version d.mode d.command)).sentAt x.tie
      = Fired.deadline) :
    checkIfSupported x.Do x.tie x.Version d.mode d.command = ("", none) ∧
    probeAndExecute x d =
      (if runsProbe d.command then [Event.checkIfSupported x.Version d.mode d.command] else [])
        ++ executeRoot x d.rootCmd ∧
    stderrWrites (probeAndExecute x d) = [] := by
  have h1 : checkIfSupported x.Do x.tie x.Version d.mode d.command = ("", none) := by
    simp [checkIfSupported, hdead]
  have h2 : probeAndExecute x d =
      (if runsProbe d.command then [Event.checkIfSupported x.Version d.mode d.command] else [])
        ++ executeRoot x d.rootCmd := by
    by_cases hr : runsProbe d.command = true
    · simp [probeAndExecute, hr, h1]
    · simp [probeAndExecute, hr]
  refine ⟨h1, h2, ?_⟩
  rw [h2]
  by_cases hr : runsProbe d.command = true
  · simp [hr, stderrWrites, List.filter_cons, Event.isWrite]
    simpa [stderrWrites] using executeRoot_writes x d.rootCmd
  · simp [hr]
    exact executeRoot_writes x d.rootCmd

theorem probe_on_answer (x : Externals) (d : Dispatch)
    (hrun : runsProbe d.command = true)
    (hfirst : select (x.Do (supportedRequest x.Version d.mode d.command)).sentAt x.tie
      = Fired.result)
    (hnil : (x.Do (supportedRequest x.Version d.mode d.command)).res.err = none) :
    checkIfSupported x.Do x.tie x.Version d.mode d.command =
      ((x.Do (supportedRequest x.Version d.mode d.command)).res.warning, none) ∧
    probeAndExecute x d =
      Event.checkIfSupported x.Version d.mode d.command ::
        ((if (x.Do (supportedRequest x.Version d.mode d.command)).res.warning = "" then []
          else [Event.Fprintln
            (Operand.str (x.Do (supportedRequest x.Version d.mode d.command)).res.warning)])
          ++ executeRoot x d.rootCmd) ∧
    stderrWrites (probeAndExecute x d) =
      (if (x.Do (supportedRequest x.Version d.mode d.command)).res.warning = "" then []
       else [Event.Fprintln
        (Operand.str (x.Do (supportedRequest x.Version d.mode d.command)).res.warning)]) := by
  have h1 : checkIfSupported x.Do x.tie x.Version d.mode d.command =
      ((x.Do (supportedRequest x.Version d.mode d.command)).res.warning, none) := by
    simp [checkIfSupported, hfirst, hnil, stackerr_Wrap]
  have h2 : probeAndExecute x d =
      Event.checkIfSupported x.Version d.mode d.command ::
        ((if (x.Do (supportedRequest x.Version d.mode d.command)).res.warning = "" then []
          else [Event.Fprintln
            (Operand.str (x.Do (supportedRequest x.Version d.mode d.command)).res.warning)])
          ++ executeRoot x d.rootCmd) := by
    by_cases hw : (x.Do (supportedRequest x.Version d.mode d.command)).res.warning = ""
    · simp [probeAndExecute, hrun, h1, hw]
    · simp [probeAndExecute, hrun, h1, hw]
  refine ⟨h1, h2, ?_⟩
  rw [h2]
  have he := executeRoot_writes x d.rootCmd
  simp only [stderrWrites] at he
  by_cases hw : (x.Do (supportedRequest x.Version d.mode d.command)).res.warning = ""
  · simp [stderrWrites, hw, List.filter_cons, Event.isWrite, he]
  · simp [stderrWrites, hw, List.filter_cons, Event.isWrite, he]

theorem probe_event_args (x : Externals) (d : Dispatch) (v m : String) (a : List String)
    (h : Event.checkIfSupported v m a ∈ probeAndExecute x d) :
    runsProbe d.command = true ∧ v = x.Version ∧ m = d.mode ∧ a = d.command := by
  have hx := executeRoot_no_probe x d.rootCmd v m a
  unfold probeAndExecute at h
  by_cases hr : runsProbe d.command = true
  · rw [if_pos hr] at h
    refine ⟨hr, ?_⟩
    rcases List.mem_cons.mp h with h | h
    · injection h with h1 h2 h3
      exact ⟨h1, h2, h3⟩
    · exfalso
      rcases hcs : checkIfSupported x.Do x.tie x.Version d.mode d.command with ⟨w, _ | err⟩
      · rw [hcs] at h
        by_cases hm : w = ""
        · simp only [hm, ne_eq, not_true_eq_false, if_false] at h
          exact hx h
        · simp only [hm, ne_eq, not_false_eq_true, if_true] at h
          rcases List.mem_cons.mp h with h | h
          · cases h
          · exact hx h
      · rw [hcs] at h
        simp at h
  · rw [if_neg hr] at h
    exact absurd h hx

theorem dispatch_known (x : Externals) (e : Env)
    (hH : x.HerokuFormat ≠ x.LegacyParseFormat ∧ x.HerokuFormat ≠ x.ParseFormat)
    (hk : knownType x e.Type_) :
    (dispatch x e).rootCmd ≠ none ∧
    (dispatch x e).mode = if e.Type_ = x.HerokuFormat then "heroku" else "parse" := by
  unfold dispatch
  by_cases h1 : e.Type_ = x.LegacyParseFormat ∨ e.Type_ = x.ParseFormat
  · rw [if_pos h1]
    have hne : e.Type_ ≠ x.HerokuFormat := by
      rcases h1 with h | h
      · rw [h]; exact fun h' => hH.1 h'.symm
      · rw [h]; exact fun h' => hH.2 h'.symm
    simp [hne]
  · rw [if_neg h1]
    have hh : e.Type_ = x.HerokuFormat := by
      rcases hk with h | h | h
      · exact absurd (Or.inl h) h1
      · exact absurd (Or.inr h) h1
      · exact h
    simp [hh]

theorem probeAndExecute_events (x : Externals) (d : Dispatch) (c : Command)
    (hc : d.rootCmd = some c) :
    ∀ ev ∈ probeAndExecute x d, ev.isProbeOrExecute = true →
      ev = Event.checkIfSupported x.Version d.mode d.command ∨ ev = Event.Execute c := by
  intro ev hev hp
  have hx : ∀ ev ∈ executeRoot x d.rootCmd, ev.isProbeOrExecute = true →
      ev = Event.Execute c := by
    intro ev hev hp
    rw [hc] at hev
    simp only [executeRoot] at hev
    cases hE : x.Execute c <;> rw [hE] at hev <;> simp at hev
    · exact hev
    · rcases hev with h | h
      · exact h
      · subst h; simp [Event.isProbeOrExecute] at hp
  unfold probeAndExecute at hev
  by_cases hr : runsProbe d.command = true
  · rw [if_pos hr] at hev
    rcases List.mem_cons.mp hev with h | h
    · exact Or.inl h
    · right
      rcases hcs : checkIfSupported x.Do x.tie x.Version d.mode d.command with ⟨m, _ | err⟩
      · rw [hcs] at h
        by_cases hm : m = ""
        · simp only [hm, ne_eq, not_true_eq_false, if_false] at h
          exact hx ev h hp
        · simp only [hm, ne_eq, not_false_eq_true, if_true] at h
          rcases List.mem_cons.mp h with h | h
          · subst h; simp [Event.isProbeOrExecute] at hp
          · exact hx ev h hp
      · rw [hcs] at h
        simp at h
        rcases h with h | h <;> subst h <;> simp [Event.isProbeOrExecute] at hp
  · rw [if_neg hr] at hev
    exact Or.inr (hx ev hev hp)

theorem mainFromType_unknown (x : Externals) (e : Env) (hk : ¬ knownType x e.Type_) :
    mainFromType x e =
      [Event.Fprintf "Unknown project type %d.\n" (Operand.int e.Type_), Event.Exit 1] := by
  have h : e.Type_ ≠ x.LegacyParseFormat ∧ e.Type_ ≠ x.ParseFormat ∧
      e.Type_ ≠ x.HerokuFormat := by
    refine ⟨fun h => hk (Or.inl h), fun h => hk (Or.inr (Or.inl h)),
      fun h => hk (Or.inr (Or.inr h))⟩
  unfold mainFromType
  rw [if_pos h]

theorem mainFromType_reaches (x : Externals) (e : Env) :
    ∀ ev ∈ mainFromType x e, ev.isProbeOrExecute = true →
      knownType x e.Type_ ∧
      ∃ e1 : Env, e1.Type_ = e.Type_ ∧ ev ∈ probeAndExecute x (dispatch x e1) := by
  intro ev hev hp
  by_cases hk : knownType x e.Type_
  · refine ⟨hk, ?_⟩
    -- the environment handed on differs from `e` in `Server` only
    obtain ⟨e1, he1, hty⟩ : ∃ e1 : Env,
        e1 = (if e.Server = "" then { e with Server := x.DefaultBaseURL } else e) ∧
        e1.Type_ = e.Type_ := by
      refine ⟨_, rfl, ?_⟩
      by_cases hs : e.Server = "" <;> simp [hs]
    refine ⟨e1, hty, ?_⟩
    have hg : ¬ (e.Type_ ≠ x.LegacyParseFormat ∧ e.Type_ ≠ x.ParseFormat ∧
        e.Type_ ≠ x.HerokuFormat) := by
      rintro ⟨h1, h2, h3⟩
      rcases hk with h | h | h
      · exact h1 h
      · exact h2 h
      · exact h3 h
    unfold mainFromType at hev
    rw [if_neg hg] at hev
    simp only [← he1] at hev
    rcases List.mem_cons.mp hev with h | h
    · subst h; simp [Event.isProbeOrExecute] at hp
    · cases hP : x.NewParseAPIClient e1 with
      | some err =>
        rw [hP] at h
        simp at h
        rcases h with h | h <;> subst h <;> simp [Event.isProbeOrExecute] at hp
      | none =>
        rw [hP] at h
        by_cases hh : e1.Type_ = x.HerokuFormat
        · simp only [hh, if_true] at h
          rcases List.mem_cons.mp h with h | h
          · subst h; simp [Event.isProbeOrExecute] at hp
          · cases hQ : x.NewHerokuAPIClient e1 with
            | some err =>
              rw [hQ] at h
              simp at h
              rcases h with h | h <;> subst h <;> simp [Event.isProbeOrExecute] at hp
            | none =>
              rw [hQ] at h
              exact h
        · simp only [hh, if_false] at h
          exact h
  · rw [mainFromType_unknown x e hk] at hev
    simp at hev
    rcases hev with h | h <;> subst h <;> simp [Event.isProbeOrExecute] at hp

theorem locateProject_error_events (x : Externals) (e : Env) (tr : List Event)
    (h : locateProject x e = Except.error tr) :
    ∀ ev ∈ tr, ev.isProbeOrExecute = false := by
  unfold locateProject at h
  by_cases hr : e.Root = ""
  · rw [if_pos hr] at h
    cases hg : x.Getwd with
    | error err =>
      rw [hg] at h
      simp only [Except.error.injEq] at h
      subst h
      intro ev hev
      simp at hev
      rcases hev with h | h <;> subst h <;> rfl
    | ok cur =>
      rw [hg] at h
      simp only at h
      by_cases hp : x.IsProjectDir (x.GetProjectRoot e cur) = true
      · rw [if_pos hp] at h
        cases hc : x.ConfigFromDir (x.GetProjectRoot e cur) with
        | error err =>
          rw [hc] at h
          simp only [Except.error.injEq] at h
          subst h
          intro ev hev
          simp at hev
          rcases hev with h | h <;> subst h <;> rfl
        | ok config =>
          rw [hc] at h
          simp only at h
          split at h <;> cases h
      · rw [if_neg hp] at h
        cases h
  · rw [if_neg hr] at h
    cases h

theorem main_reaches (x : Externals) :
    ∀ ev ∈ main x, ev.isProbeOrExecute = true →
      ∃ e e1 : Env, locateProject x (initialEnv x) = Except.ok e ∧ knownType x e.Type_ ∧
        e1.Type_ = e.Type_ ∧ ev ∈ probeAndExecute x (dispatch x e1) := by
  intro ev hev hp
  unfold main at hev
  cases hl : locateProject x (initialEnv x) with
  | error tr =>
    rw [hl] at hev
    have := locateProject_error_events x _ tr hl ev hev
    rw [this] at hp
    cases hp
  | ok e =>
    rw [hl] at hev
    obtain ⟨hk, e1, hty, hmem⟩ := mainFromType_reaches x e ev hev hp
    exact ⟨e, e1, rfl, hk, hty, hmem⟩

/-- C1, as stated, fails: the probe is run, its response arrives before the deadline
carrying an error, and `main` prints the error and exits with status 1 without reaching
`rootCmd.Execute`. -/
theorem probe_error_aborts_main :
    runsProbe ["deploy"] = true ∧
    select ((sampleExternals errorReply false ["deploy"]).Do
      (supportedRequest "3.0.5" "parse" ["deploy"])).sentAt false = Fired.result ∧
    ((sampleExternals errorReply false ["deploy"]).Do
      (supportedRequest "3.0.5" "parse" ["deploy"])).res.err ≠ none ∧
    main (sampleExternals errorReply false ["deploy"]) =
      [Event.NewParseAPIClient, Event.checkIfSupported "3.0.5" "parse" ["deploy"],
       Event.Fprintln (Operand.err { msg := "unauthorized", stack := true }), Event.Exit 1] ∧
    ∀ c, Event.Execute c ∉ main (sampleExternals errorReply false ["deploy"]) := by
  have h : main (sampleExternals errorReply false ["deploy"]) =
      [Event.NewParseAPIClient, Event.checkIfSupported "3.0.5" "parse" ["deploy"],
       Event.Fprintln (Operand.err { msg := "unauthorized", stack := true }), Event.Exit 1] := by
    decide
  refine ⟨by decide, by decide, by decide, h, ?_⟩
  intro c
  rw [h]
  simp

/-- C1, amended: for every invocation in which the compatibility probe is run and its
response arrives before the deadline carrying an error, `checkIfSupported` returns that
error (wrapped), and `main` prints it on the error stream and exits with status 1; it
does not reach `rootCmd.Execute`. -/
theorem probe_error_exits (x : Externals) (d : Dispatch) (err : GoError)
    (hrun : runsProbe d.command = true)
    (hfirst : select (x.Do (supportedRequest x.Version d.mode d.command)).sentAt x.tie
      = Fired.result)
    (herr : (x.Do (supportedRequest x.Version d.mode d.command)).res.err = some err) :
    checkIfSupported x.Do x.tie x.Version d.mode d.command =
      ((x.Do (supportedRequest x.Version d.mode d.command)).res.warning,
        some { msg := err.msg, stack := true }) ∧
    probeAndExecute x d =
      [Event.checkIfSupported x.Version d.mode d.command,
       Event.Fprintln (Operand.err { msg := err.msg, stack := true }), Event.Exit 1] ∧
    ∀ c, Event.Execute c ∉ probeAndExecute x d := by
  obtain ⟨h1, h2⟩ := probe_on_error x d err hrun hfirst herr
  refine ⟨h1, h2, ?_⟩
  intro c
  rw [h2]
  simp

/-- Witness of the amended C1: a `deploy` whose probe is answered with an error. -/
theorem probe_error_exits_witness :
    runsProbe deployDispatch.command = true ∧
    select ((sampleExternals errorReply false ["deploy"]).Do
      (supportedRequest (sampleExternals errorReply false ["deploy"]).Version
        deployDispatch.mode deployDispatch.command)).sentAt
      (sampleExternals errorReply false ["deploy"]).tie = Fired.result ∧
    ((sampleExternals errorReply false ["deploy"]).Do
      (supportedRequest (sampleExternals errorReply false ["deploy"]).Version
        deployDispatch.mode deployDispatch.command)).res.err
      = some { msg := "unauthorized", stack := false } ∧
    (checkIfSupported (sampleExternals errorReply false ["deploy"]).Do
        (sampleExternals errorReply false ["deploy"]).tie
        (sampleExternals errorReply false ["deploy"]).Version
        deployDispatch.mode deployDispatch.command =
      (((sampleExternals errorReply false ["deploy"]).Do
        (supportedRequest (sampleExternals errorReply false ["deploy"]).Version
          deployDispatch.mode deployDispatch.command)).res.warning,
        some { msg := "unauthorized", stack := true }) ∧
    probeAndExecute (sampleExternals errorReply false ["deploy"]) deployDispatch =
      [Event.checkIfSupported (sampleExternals errorReply false ["deploy"]).Version
          deployDispatch.mode deployDispatch.command,
       Event.Fprintln (Operand.err { msg := "unauthorized", stack := true }), Event.Exit 1] ∧
    ∀ c, Event.Execute c ∉ probeAndExecute (sampleExternals errorReply false ["deploy"])
      deployDispatch) :=
  ⟨by decide, by decide, by decide,
    probe_error_exits (sampleExternals errorReply false ["deploy"]) deployDispatch
      { msg := "unauthorized", stack := false } (by decide) (by decide) (by decide)⟩

/-- C2: for every command token list, lines 100-114 of `main` call `checkIfSupported` if
and only if the list does not start with the token `update` (so the probe is run for the
empty list and for every list whose first token differs from `update`, whatever comes
later in it); and whenever a run of `main` calls `checkIfSupported`, the command it
passes does not start with `update`. -/
theorem probe_skipped_iff_update (x : Externals) (d : Dispatch) :
    ((∃ v m a, Event.checkIfSupported v m a ∈ probeAndExecute x d) ↔
      ¬ ∃ rest, d.command = "update" :: rest) ∧
    (runsProbe d.command = true ↔ ¬ ∃ rest, d.command = "update" :: rest) ∧
    ∀ v m a, Event.checkIfSupported v m a ∈ main x → ¬ ∃ rest, a = "update" :: rest := by
  refine ⟨?_, runsProbe_iff d.command, ?_⟩
  · rw [← runsProbe_iff]
    constructor
    · rintro ⟨v, m, a, h⟩
      exact (probe_event_args x d v m a h).1
    · intro hr
      exact ⟨x.Version, d.mode, d.command, by simp [probeAndExecute, hr]⟩
  · intro v m a h
    obtain ⟨e, e1, _, _, _, hmem⟩ := main_reaches x _ h rfl
    obtain ⟨hr, _, _, ha⟩ := probe_event_args x _ v m a hmem
    rw [ha]
    exact (runsProbe_iff _).mp hr

/-- C3: for every probe request, if the `select` takes the deadline case (the one-second
timer fires before the background request has delivered a result), `checkIfSupported`
returns the empty warning and a nil error whatever the background request produces;
`main` then writes nothing to the error stream and goes on to `rootCmd.Execute`. -/
theorem probe_timeout_silent (x : Externals) (d : Dispatch)
    (hdead : select (x.Do (supportedRequest x.Version d.mode d.command)).sentAt x.tie
      = Fired.deadline) :
    checkIfSupported x.Do x.tie x.Version d.mode d.command = ("", none) ∧
    probeAndExecute x d =
      (if runsProbe d.command then [Event.checkIfSupported x.Version d.mode d.command] else [])
        ++ executeRoot x d.rootCmd ∧
    stderrWrites (probeAndExecute x d) = [] ∧
    ∀ c, d.rootCmd = some c → Event.Execute c ∈ probeAndExecute x d := by
  obtain ⟨h1, h2, h3⟩ := probe_on_deadline x d hdead
  refine ⟨h1, h2, h3, ?_⟩
  intro c hc
  rw [h2, hc]
  exact List.mem_append_right _ (executeRoot_some x c)

/-- Witness of C3: the remote service answers after two seconds, with a warning. -/
theorem probe_timeout_silent_witness :
    select ((sampleExternals lateReply true ["deploy"]).Do
      (supportedRequest (sampleExternals lateReply true ["deploy"]).Version
        deployDispatch.mode deployDispatch.command)).sentAt
      (sampleExternals lateReply true ["deploy"]).tie = Fired.deadline ∧
    (checkIfSupported (sampleExternals lateReply true ["deploy"]).Do
        (sampleExternals lateReply true ["deploy"]).tie
        (sampleExternals lateReply true ["deploy"]).Version
        deployDispatch.mode deployDispatch.command = ("", none) ∧
    probeAndExecute (sampleExternals lateReply true ["deploy"]) deployDispatch =
      (if runsProbe deployDispatch.command then
        [Event.checkIfSupported (sampleExternals lateReply true ["deploy"]).Version
          deployDispatch.mode deployDispatch.command] else [])
        ++ executeRoot (sampleExternals lateReply true ["deploy"]) deployDispatch.rootCmd ∧
    stderrWrites (probeAndExecute (sampleExternals lateReply true ["deploy"]) deployDispatch)
      = [] ∧
    ∀ c, deployDispatch.rootCmd = some c →
      Event.Execute c ∈ probeAndExecute (sampleExternals lateReply true ["deploy"])
        deployDispatch) :=
  ⟨by decide, probe_timeout_silent (sampleExternals lateReply true ["deploy"]) deployDispatch
    (by decide)⟩

/-- C4: for every probe that is run and whose response arrives before the deadline
without error, carrying the warning string `w`, `checkIfSupported` returns `(w, nil)` and
`main` writes `w` followed by a newline to the error stream exactly when `w` is not
empty, an empty `w` producing no output; in both cases `main` then executes the
command. -/
theorem probe_warning_printed (x : Externals) (d : Dispatch)
    (hrun : runsProbe d.command = true)
    (hfirst : select (x.Do (supportedRequest x.Version d.mode d.command)).sentAt x.tie
      = Fired.result)
    (hnil : (x.Do (supportedRequest x.Version d.mode d.command)).res.err = none) :
    checkIfSupported x.Do x.tie x.Version d.mode d.command =
      ((x.Do (supportedRequest x.Version d.mode d.command)).res.warning, none) ∧
    probeAndExecute x d =
      Event.checkIfSupported x.Version d.mode d.command ::
        ((if (x.Do (supportedRequest x.Version d.mode d.command)).res.warning = "" then []
          else [Event.Fprintln
            (Operand.str (x.Do (supportedRequest x.Version d.mode d.command)).res.warning)])
          ++ executeRoot x d.rootCmd) ∧
    stderrWrites (probeAndExecute x d) =
      (if (x.Do (supportedRequest x.Version d.mode d.command)).res.warning = "" then []
       else [Event.Fprintln
        (Operand.str (x.Do (supportedRequest x.Version d.mode d.command)).res.warning)]) ∧
    ∀ c, d.rootCmd = some c → Event.Execute c ∈ probeAndExecute x d := by
  obtain ⟨h1, h2, h3⟩ := probe_on_answer x d hrun hfirst hnil
  refine ⟨h1, h2, h3, ?_⟩
  intro c hc
  rw [h2, hc]
  exact List.mem_cons_of_mem _ (List.mem_append_right _ (executeRoot_some x c))

/-- Witness of C4: the remote service answers at once with a warning. -/
theorem probe_warning_printed_witness :
    runsProbe deployDispatch.command = true ∧
    select ((sampleExternals (warningReply "please upgrade") false ["deploy"]).Do
      (supportedRequest (sampleExternals (warningReply "please upgrade") false ["deploy"]).Version
        deployDispatch.mode deployDispatch.command)).sentAt
      (sampleExternals (warningReply "please upgrade") false ["deploy"]).tie = Fired.result ∧
    ((sampleExternals (warningReply "please upgrade") false ["deploy"]).Do
      (supportedRequest (sampleExternals (warningReply "please upgrade") false ["deploy"]).Version
        deployDispatch.mode deployDispatch.command)).res.err = none ∧
    stderrWrites (probeAndExecute (sampleExternals (warningReply "please upgrade") false
      ["deploy"]) deployDispatch) = [Event.Fprintln (Operand.str "please upgrade")] :=
  ⟨by decide, by decide, by decide,
    (probe_warning_printed (sampleExternals (warningReply "please upgrade") false ["deploy"])
      deployDispatch (by decide) (by decide) (by decide)).2.2.1⟩

/-- C6, as stated, fails: a probe answered with an error before the deadline, and with
no warning, makes `main` write to the error stream. -/
theorem probe_error_writes :
    (errorReply.res.warning = "" ∧ errorReply.res.err ≠ none) ∧
    stderrWrites (main (sampleExternals errorReply false ["deploy"])) =
      [Event.Fprintln (Operand.err { msg := "unauthorized", stack := true })] ∧
    stderrWrites (main (sampleExternals errorReply false ["deploy"])) ≠ [] := by
  decide

/-- C6, amended: over the probe's outcomes, `main` writes to the user on account of the
probe in exactly two of them: answered before the deadline with an error (the error is
printed, and `main` then exits with status 1), and answered before the deadline without
error and with a non-empty warning (the warning is printed); a probe that timed out, was
answered with neither, or was skipped produces no output. -/
theorem probe_writes (x : Externals) (d : Dispatch) :
    stderrWrites (probeAndExecute x d) =
      if runsProbe d.command = true then
        match select (x.Do (supportedRequest x.Version d.mode d.command)).sentAt x.tie with
        | Fired.deadline => []
        | Fired.result =>
          match (x.Do (supportedRequest x.Version d.mode d.command)).res.err with
          | some err => [Event.Fprintln (Operand.err { msg := err.msg, stack := true })]
          | none =>
            if (x.Do (supportedRequest x.Version d.mode d.command)).res.warning = "" then []
            else [Event.Fprintln
              (Operand.str (x.Do (supportedRequest x.Version d.mode d.command)).res.warning)]
      else [] := by
  have he := executeRoot_writes x d.rootCmd
  by_cases hrun : runsProbe d.command = true
  · rw [if_pos hrun]
    cases hsel : select (x.Do (supportedRequest x.Version d.mode d.command)).sentAt x.tie with
    | deadline => exact (probe_on_deadline x d hsel).2.2
    | result =>
      cases herr : (x.Do (supportedRequest x.Version d.mode d.command)).res.err with
      | some err =>
        rw [(probe_on_error x d err hrun hsel herr).2]
        rfl
      | none => exact (probe_on_answer x d hrun hsel herr).2.2
  · rw [if_neg hrun]
    simpa [probeAndExecute, hrun] using he

/-- C10: in `main`, whenever control reaches the compatibility probe or
`rootCmd.Execute`, the project type is one of `LegacyParseFormat`, `ParseFormat` and
`HerokuFormat`, and the type switch has assigned both values: `rootCmd` is not nil (the
nil call never happens) and `mode` is `heroku` exactly when the type is `HerokuFormat`
and `parse` otherwise; for every other project type `main` prints the unknown-type
message and exits with status 1 before creating any API client, running the probe or
executing a command. `HerokuFormat` differs from the two other constants. -/
theorem main_type_guard (x : Externals)
    (hH : x.HerokuFormat ≠ x.LegacyParseFormat ∧ x.HerokuFormat ≠ x.ParseFormat) :
    (∀ e : Env, knownType x e.Type_ →
      (dispatch x e).rootCmd ≠ none ∧
      (dispatch x e).mode = if e.Type_ = x.HerokuFormat then "heroku" else "parse") ∧
    (∀ ev ∈ main x, ev.isProbeOrExecute = true →
      ∃ e, locateProject x (initialEnv x) = Except.ok e ∧ knownType x e.Type_ ∧
        ev ≠ Event.nilCommand ∧
        ∀ v m a, ev = Event.checkIfSupported v m a →
          m = if e.Type_ = x.HerokuFormat then "heroku" else "parse") ∧
    (∀ e, locateProject x (initialEnv x) = Except.ok e → ¬ knownType x e.Type_ →
      main x = [Event.Fprintf "Unknown project type %d.\n" (Operand.int e.Type_),
        Event.Exit 1]) := by
  refine ⟨fun e hk => dispatch_known x e hH hk, ?_, ?_⟩
  · intro ev hev hp
    obtain ⟨e, e1, hl, hk, hty, hmem⟩ := main_reaches x ev hev hp
    refine ⟨e, hl, hk, ?_⟩
    have hk1 : knownType x e1.Type_ := by rw [hty]; exact hk
    obtain ⟨hsome, hmode⟩ := dispatch_known x e1 hH hk1
    obtain ⟨c, hc⟩ := Option.ne_none_iff_exists'.mp hsome
    rcases probeAndExecute_events x (dispatch x e1) c hc ev hmem hp with h | h
    · subst h
      refine ⟨by simp, ?_⟩
      intro v m a hvm
      injection hvm with _ hm _
      rw [← hm, hmode, hty]
    · subst h
      refine ⟨by simp, ?_⟩
      intro v m a hvm
      cases hvm
  · intro e hl hk
    unfold main
    rw [hl]
    exact mainFromType_unknown x e hk

/-- Witness of C10: a legacy parse project running `deploy`. -/
theorem main_type_guard_witness :
    ((2 : Int) ≠ 0 ∧ (2 : Int) ≠ 1) ∧
    ((∀ e : Env, knownType (sampleExternals (warningReply "") false ["deploy"]) e.Type_ →
      (dispatch (sampleExternals (warningReply "") false ["deploy"]) e).rootCmd ≠ none ∧
      (dispatch (sampleExternals (warningReply "") false ["deploy"]) e).mode =
        if e.Type_ = 2 then "heroku" else "parse") ∧
    (∀ ev ∈ main (sampleExternals (warningReply "") false ["deploy"]),
      ev.isProbeOrExecute = true →
      ∃ e, locateProject (sampleExternals (warningReply "") false ["deploy"])
          (initialEnv (sampleExternals (warningReply "") false ["deploy"])) = Except.ok e ∧
        knownType (sampleExternals (warningReply "") false ["deploy"]) e.Type_ ∧
        ev ≠ Event.nilCommand ∧
        ∀ v m a, ev = Event.checkIfSupported v m a →
          m = if e.Type_ = 2 then "heroku" else "parse") ∧
    (∀ e, locateProject (sampleExternals (warningReply "") false ["deploy"])
        (initialEnv (sampleExternals (warningReply "") false ["deploy"])) = Except.ok e →
      ¬ knownType (sampleExternals (warningReply "") false ["deploy"]) e.Type_ →
      main (sampleExternals (warningReply "") false ["deploy"]) =
        [Event.Fprintf "Unknown project type %d.\n" (Operand.int e.Type_), Event.Exit 1])) :=
  ⟨by decide, main_type_guard (sampleExternals (warningReply "") false ["deploy"]) (by decide)⟩

/-! ## The deploy pipeline -/

theorem filePath_data (dir sub path : String) :
    (filePath dir sub path).data = dir.data ++ '/' :: (sub.data ++ '/' :: path.data) := by
  simp [filePath, String.data_append]

theorem split_at_separator {α : Type} (a : α) :
    ∀ (l₁ l₂ r₁ r₂ : List α), a ∉ l₁ → a ∉ l₂ → l₁ ++ a :: r₁ = l₂ ++ a :: r₂ →
      l₁ = l₂ ∧ r₁ = r₂ := by
  intro l₁
  induction l₁ with
  | nil =>
    intro l₂ r₁ r₂ _ h2 h
    cases l₂ with
    | nil => simpa using h
    | cons b l₂ =>
      simp only [List.nil_append, List.cons_append, List.cons.injEq] at h
      exact absurd (h.1 ▸ List.mem_cons_self _ _) h2
  | cons b l₁ ih =>
    intro l₂ r₁ r₂ h1 h2 h
    cases l₂ with
    | nil =>
      simp only [List.nil_append, List.cons_append, List.cons.injEq] at h
      exact absurd (h.1 ▸ List.mem_cons_self _ _) h1
    | cons c l₂ =>
      simp only [List.cons_append, List.cons.injEq] at h
      obtain ⟨rfl, h⟩ := h
      have := ih l₂ r₁ r₂ (fun hm => h1 (List.mem_cons_of_mem _ hm))
        (fun hm => h2 (List.mem_cons_of_mem _ hm)) h
      exact ⟨by rw [this.1], this.2⟩

theorem filePath_inj (dir sub p q : String) (h : filePath dir sub p = filePath dir sub q) :
    p = q := by
  have hd := congrArg String.data h
  rw [filePath_data, filePath_data] at hd
  have h1 := List.append_cancel_left hd
  simp only [List.cons.injEq, true_and] at h1
  have h2 := List.append_cancel_left h1
  simp only [List.cons.injEq, true_and] at h2
  exact String.ext h2

theorem target_inj (k : Dirs) (dir : String) (hk : DirsOk k) (a b : Entry)
    (h : target k dir a = target k dir b) : a.1 = b.1 ∧ a.2.1 = b.2.1 := by
  obtain ⟨ca, pa, ta⟩ := a
  obtain ⟨cb, pb, tb⟩ := b
  simp only [target] at h
  have hd := congrArg String.data h
  rw [filePath_data, filePath_data] at hd
  have h1 := List.append_cancel_left hd
  simp only [List.cons.injEq, true_and] at h1
  have hsub : ∀ c : AssetClass, '/' ∉ (classSubdir k c).data := by
    intro c
    cases c
    · exact hk.1
    · exact hk.2.1
  have h2 := split_at_separator '/' _ _ _ _ (hsub ca) (hsub cb) h1
  have hs : classSubdir k ca = classSubdir k cb := String.ext h2.1
  have hp : pa = pb := String.ext h2.2
  refine ⟨?_, hp⟩
  cases ca <;> cases cb <;> simp only [classSubdir] at hs
  · rfl
  · exact absurd hs hk.2.2
  · exact absurd hs.symm hk.2.2
  · rfl

theorem mem_entries (v : deployFileData) (c : AssetClass) (path token : String) :
    (c, path, token) ∈ entries v ↔ (path, token) ∈ v.get c := by
  cases c <;> simp [entries, deployFileData.get]

theorem entries_targets_nodup (k : Dirs) (dir : String) (hk : DirsOk k) (v : deployFileData)
    (hC : UniqueKeys v.Cloud) (hP : UniqueKeys v.Public) :
    ((entries v).map (target k dir)).Nodup := by
  unfold entries
  rw [List.map_append, List.map_map, List.map_map]
  have hinj : ∀ c : AssetClass, Function.Injective
      (fun p : String => target k dir (c, p, "")) := by
    intro c p q h
    exact (target_inj k dir hk _ _ h).2
  have e1 : ∀ (c : AssetClass) (l : List (String × String)),
      l.map (target k dir ∘ fun pt => (c, pt.1, pt.2)) =
        (l.map Prod.fst).map (fun p : String => target k dir (c, p, "")) := by
    intro c l
    rw [List.map_map]
    rfl
  rw [e1, e1]
  refine List.Nodup.append (hC.map (hinj _)) (hP.map (hinj _)) ?_
  intro n h1 h2
  simp only [List.mem_map] at h1 h2
  obtain ⟨p, _, rfl⟩ := h1
  obtain ⟨q, _, hq⟩ := h2
  have := (target_inj k dir hk _ _ hq).1
  cases this

theorem downloadEntry_files (R : Remote) (k : Dirs) (scratch : String)
    (checksums : deployFileData) (en : Entry) (s : Staging) (name : String)
    (h : name ≠ target k scratch en) :
    (downloadEntry R k scratch checksums en s).2.files name = s.files name := by
  unfold downloadEntry
  cases R.fetch en.1 en.2.1 en.2.2 with
  | error msg => rfl
  | ok payload =>
    simp only
    have hw : (s.files.write (filePath scratch (classSubdir k en.1) en.2.1) payload) name
        = s.files name := by
      simp only [FileSystem.write]
      exact if_neg h
    cases (checksums.get en.1).lookup en.2.1 with
    | none => exact hw
    | some sum =>
      simp only
      split <;> exact hw

theorem downloadAll_files (R : Remote) (k : Dirs) (scratch : String)
    (checksums : deployFileData) (name : String) :
    ∀ (l : List Entry) (s : Staging), name ∉ l.map (target k scratch) →
      (downloadAll R k scratch checksums l s).2.files name = s.files name := by
  intro l
  induction l with
  | nil => intro s _; rfl
  | cons en rest ih =>
    intro s h
    simp only [List.map_cons, List.mem_cons, not_or] at h
    have h1 := downloadEntry_files R k scratch checksums en s name h.1
    unfold downloadAll
    rcases hd : downloadEntry R k scratch checksums en s with ⟨_ | err, s1⟩
    · rw [hd] at h1
      simp only
      rw [ih s1 h.2]
      exact h1
    · rw [hd] at h1
      exact h1

theorem downloadEntry_ok (R : Remote) (k : Dirs) (scratch : String)
    (checksums : deployFileData) (en : Entry) (s : Staging)
    (h : (downloadEntry R k scratch checksums en s).1 = none) :
    ∃ payload, R.fetch en.1 en.2.1 en.2.2 = Except.ok payload ∧
      (downloadEntry R k scratch checksums en s).2.files (target k scratch en) = some payload ∧
      (checksums.get en.1).lookup en.2.1 = some (R.digest payload) := by
  unfold downloadEntry at h ⊢
  cases hf : R.fetch en.1 en.2.1 en.2.2 with
  | error msg => rw [hf] at h; cases h
  | ok payload =>
    rw [hf] at h
    simp only at h ⊢
    cases hl : (checksums.get en.1).lookup en.2.1 with
    | none => rw [hl] at h; cases h
    | some sum =>
      rw [hl] at h
      simp only at h ⊢
      by_cases hd : R.digest payload = sum
      · rw [if_pos hd]
        refine ⟨payload, rfl, ?_, by rw [hd]⟩
        simp [FileSystem.write, target]
      · rw [if_neg hd] at h
        cases h

theorem downloadAll_ok (R : Remote) (k : Dirs) (scratch : String)
    (checksums : deployFileData) :
    ∀ (l : List Entry) (s : Staging), (l.map (target k scratch)).Nodup →
      (downloadAll R k scratch checksums l s).1 = none →
      ∀ en ∈ l, ∃ payload, R.fetch en.1 en.2.1 en.2.2 = Except.ok payload ∧
        (downloadAll R k scratch checksums l s).2.files (target k scratch en) = some payload ∧
        (checksums.get en.1).lookup en.2.1 = some (R.digest payload) := by
  intro l
  induction l with
  | nil => intro s _ _ en hen; cases hen
  | cons e0 rest ih =>
    intro s hnd hok en hen
    rw [List.map_cons, List.nodup_cons] at hnd
    unfold downloadAll at hok ⊢
    rcases hd : downloadEntry R k scratch checksums e0 s with ⟨_ | err, s1⟩
    · rw [hd] at hok
      simp only at hok ⊢
      rcases List.mem_cons.mp hen with rfl | hmem
      · have h0 := downloadEntry_ok R k scratch checksums en s (by rw [hd])
        rw [hd] at h0
        obtain ⟨payload, hf, hfile, hsum⟩ := h0
        refine ⟨payload, hf, ?_, hsum⟩
        rw [downloadAll_files R k scratch checksums _ rest s1 hnd.1]
        exact hfile
      · exact ih s1 hnd.2 hok en hmem
    · rw [hd] at hok
      cases hok

theorem under_target (k : Dirs) (dir : String) (en : Entry) : under dir (target k dir en) := by
  unfold under target
  rw [filePath_data]
  simp [String.data_append]

theorem target_apart (k : Dirs) (a b : String) (hab : Apart a b) (e1 e2 : Entry) :
    target k a e1 ≠ target k b e2 := by
  intro h
  have h1 := under_target k a e1
  have h2 := under_target k b e2
  rw [h] at h1
  unfold under at h1 h2
  rcases List.prefix_or_prefix_of_prefix h1 h2 with h3 | h3
  · exact hab.1 h3
  · exact hab.2 h3

theorem installEntry_files (os : Refusals) (k : Dirs) (scratchRoot destRoot : String)
    (en : Entry) (fs : FileSystem) (name : String)
    (h1 : name ≠ target k scratchRoot en) (h2 : name ≠ target k destRoot en) :
    (installEntry os k scratchRoot destRoot en fs).2 name = fs name := by
  unfold installEntry
  simp only
  split
  · rfl
  · split
    · rfl
    · split
      · rfl
      · simp only [FileSystem.write, FileSystem.remove]
        unfold target at h1 h2
        rw [if_neg h2, if_neg h1]

theorem installAll_files (os : Refusals) (k : Dirs) (scratchRoot destRoot : String)
    (name : String) :
    ∀ (l : List Entry) (fs : FileSystem),
      name ∉ l.map (target k scratchRoot) → name ∉ l.map (target k destRoot) →
      (installAll os k scratchRoot destRoot l fs).2 name = fs name := by
  intro l
  induction l with
  | nil => intro fs _ _; rfl
  | cons en rest ih =>
    intro fs h1 h2
    simp only [List.map_cons, List.mem_cons, not_or] at h1 h2
    have h0 := installEntry_files os k scratchRoot destRoot en fs name h1.1 h2.1
    unfold installAll
    rcases hd : installEntry os k scratchRoot destRoot en fs with ⟨_ | err, fs1⟩
    · rw [hd] at h0
      simp only
      rw [ih fs1 h1.2 h2.2]
      exact h0
    · rw [hd] at h0
      exact h0

theorem installEntry_ok (os : Refusals) (k : Dirs) (scratchRoot destRoot : String)
    (en : Entry) (fs : FileSystem)
    (h : (installEntry os k scratchRoot destRoot en fs).1 = none) :
    ∃ b, fs (target k scratchRoot en) = some b ∧
      (installEntry os k scratchRoot destRoot en fs).2 (target k destRoot en) = some b := by
  unfold installEntry at h ⊢
  simp only at h ⊢
  by_cases hm : os.mkdirAll (filePath destRoot (classSubdir k en.1) en.2.1) = true
  · rw [if_pos hm] at h; cases h
  · rw [if_neg hm] at h ⊢
    cases hs : fs (filePath scratchRoot (classSubdir k en.1) en.2.1) with
    | none => rw [hs] at h; cases h
    | some b =>
      rw [hs] at h
      simp only at h ⊢
      by_cases hr : os.rename (filePath scratchRoot (classSubdir k en.1) en.2.1)
          (filePath destRoot (classSubdir k en.1) en.2.1) = true
      · rw [if_pos hr] at h; cases h
      · rw [if_neg hr]
        refine ⟨b, hs, ?_⟩
        simp [FileSystem.write, target]

theorem installAll_ok (os : Refusals) (k : Dirs) (scratchRoot destRoot : String)
    (hne : ∀ e1 e2 : Entry, target k scratchRoot e1 ≠ target k destRoot e2) :
    ∀ (l : List Entry) (fs : FileSystem),
      (l.map (target k scratchRoot)).Nodup → (l.map (target k destRoot)).Nodup →
      (installAll os k scratchRoot destRoot l fs).1 = none →
      ∀ en ∈ l, ∃ b, fs (target k scratchRoot en) = some b ∧
        (installAll os k scratchRoot destRoot l fs).2 (target k destRoot en) = some b := by
  intro l
  induction l with
  | nil => intro fs _ _ _ en hen; cases hen
  | cons e0 rest ih =>
    intro fs hs hd hok en hen
    rw [List.map_cons, List.nodup_cons] at hs hd
    unfold installAll at hok ⊢
    rcases hi : installEntry os k scratchRoot destRoot e0 fs with ⟨_ | err, fs1⟩
    · rw [hi] at hok
      simp only at hok ⊢
      rcases List.mem_cons.mp hen with rfl | hmem
      · have h0 := installEntry_ok os k scratchRoot destRoot en fs (by rw [hi])
        rw [hi] at h0
        obtain ⟨b, hsrc, hdst⟩ := h0
        refine ⟨b, hsrc, ?_⟩
        rw [installAll_files os k scratchRoot destRoot _ rest fs1 ?_ hd.1]
        · exact hdst
        · intro hm
          obtain ⟨e2, _, he2⟩ := List.mem_map.mp hm
          exact hne e2 en he2
      · obtain ⟨b, hsrc, hdst⟩ := ih fs1 hs.2 hd.2 hok en hmem
        refine ⟨b, ?_, hdst⟩
        have hfr := installEntry_files os k scratchRoot destRoot e0 fs
          (target k scratchRoot en) ?_ ?_
        · rw [hi] at hfr
          rw [← hfr]
          exact hsrc
        · intro heq
          exact hs.1 (heq ▸ List.mem_map_of_mem _ hmem)
        · exact hne en e0
    · rw [hi] at hok
      cases hok

theorem downloadEntry_log (R : Remote) (k : Dirs) (scratch : String)
    (checksums : deployFileData) (en : Entry) (s : Staging) :
    (downloadEntry R k scratch checksums en s).1 = verdict R checksums en ∧
    (downloadEntry R k scratch checksums en s).2.fetched = s.fetched ++ [en] ∧
    ∀ n ∈ (downloadEntry R k scratch checksums en s).2.written,
      n ∈ s.written ∨ n = target k scratch en := by
  unfold downloadEntry verdict
  cases R.fetch en.1 en.2.1 en.2.2 with
  | error msg => exact ⟨rfl, rfl, fun n hn => Or.inl hn⟩
  | ok payload =>
    simp only
    have hw : ∀ n ∈ s.written ++ [filePath scratch (classSubdir k en.1) en.2.1],
        n ∈ s.written ∨ n = target k scratch en := by
      intro n hn
      simpa [target] using hn
    cases (checksums.get en.1).lookup en.2.1 with
    | none => exact ⟨rfl, rfl, hw⟩
    | some sum =>
      simp only
      by_cases hd : R.digest payload = sum
      · rw [if_pos hd, if_pos hd]
        exact ⟨rfl, rfl, hw⟩
      · rw [if_neg hd, if_neg hd]
        exact ⟨rfl, rfl, hw⟩

theorem downloadAll_fail (R : Remote) (k : Dirs) (scratch : String)
    (checksums : deployFileData) :
    ∀ (l : List Entry) (s : Staging), (∃ e ∈ l, verdict R checksums e ≠ none) →
      ∃ pre en post err, l = pre ++ en :: post ∧
        (∀ e ∈ pre, verdict R checksums e = none) ∧
        verdict R checksums en = some err ∧
        (downloadAll R k scratch checksums l s).1 = some err ∧
        (downloadAll R k scratch checksums l s).2.fetched = s.fetched ++ (pre ++ [en]) ∧
        ∀ n ∈ (downloadAll R k scratch checksums l s).2.written,
          n ∈ s.written ∨ n ∈ (pre ++ [en]).map (target k scratch) := by
  intro l
  induction l with
  | nil => intro s h; obtain ⟨e, he, _⟩ := h; cases he
  | cons e0 rest ih =>
    intro s h
    obtain ⟨h1, h2, h3⟩ := downloadEntry_log R k scratch checksums e0 s
    unfold downloadAll
    rcases hd : downloadEntry R k scratch checksums e0 s with ⟨_ | err, s1⟩
    · rw [hd] at h1 h2 h3
      simp only at h1 h2 h3 ⊢
      have hrest : ∃ e ∈ rest, verdict R checksums e ≠ none := by
        obtain ⟨e, he, hv⟩ := h
        rcases List.mem_cons.mp he with rfl | hm
        · exact absurd h1.symm hv
        · exact ⟨e, hm, hv⟩
      obtain ⟨pre, en, post, err, hl, hpre, hen, hres, hf, hw⟩ := ih s1 hrest
      refine ⟨e0 :: pre, en, post, err, by rw [hl]; rfl, ?_, hen, hres, ?_, ?_⟩
      · intro e he
        rcases List.mem_cons.mp he with rfl | hm
        · exact h1.symm
        · exact hpre e hm
      · rw [hf, h2]
        simp
      · intro n hn
        rcases hw n hn with hn1 | hn1
        · rcases h3 n hn1 with hn2 | hn2
          · exact Or.inl hn2
          · right
            rw [hn2]
            simp
        · right
          simp only [List.cons_append, List.map_cons, List.mem_cons]
          exact Or.inr hn1
    · rw [hd] at h1 h2 h3
      simp only at h1 h2 h3 ⊢
      refine ⟨[], e0, rest, err, rfl, ?_, h1.symm, rfl, by simpa using h2, ?_⟩
      · intro e he; cases he
      · intro n hn
        rcases h3 n hn with hn1 | hn1
        · exact Or.inl hn1
        · right
          rw [hn1]
          simp

theorem downloadAll_outside (R : Remote) (k : Dirs) (scratch : String)
    (checksums : deployFileData) (l : List Entry) (s : Staging) (name : String)
    (h : ¬ under scratch name) :
    (downloadAll R k scratch checksums l s).2.files name = s.files name := by
  apply downloadAll_files
  intro hm
  obtain ⟨e, _, he⟩ := List.mem_map.mp hm
  exact h (he ▸ under_target k scratch e)

/-- C7: for every manifest (its maps having pairwise different keys) and every remote
store, if `download(scratch, manifest)` returns success, then for each asset class and
each path of `versions[class]` the file `scratch/<classSubdir>/<path>` exists, its content
is the payload fetched for (class, path, token), and the digest of that content is
`checksums[class][path]`; `CloudDir` and `HostingDir` are any two different single-component
directory names. -/
theorem download_success_staged (R : Remote) (k : Dirs) (scratch : String)
    (release : deployInfo) (s : Staging) (hk : DirsOk k)
    (hC : UniqueKeys release.Versions.Cloud) (hP : UniqueKeys release.Versions.Public)
    (hok : (download R k scratch release s).1 = none) :
    ∀ (c : AssetClass) (path token : String), (path, token) ∈ release.Versions.get c →
      ∃ payload, R.fetch c path token = Except.ok payload ∧
        (download R k scratch release s).2.files (filePath scratch (classSubdir k c) path)
          = some payload ∧
        (release.Checksums.get c).lookup path = some (R.digest payload) := by
  intro c path token hmem
  have hnd := entries_targets_nodup k scratch hk release.Versions hC hP
  exact downloadAll_ok R k scratch release.Checksums (entries release.Versions) s hnd hok
    (c, path, token) ((mem_entries release.Versions c path token).mpr hmem)

/-- Witness of C7: the download of `TestDownload`. -/
theorem download_success_staged_witness :
    DirsOk harnessDirs ∧ UniqueKeys harnessRelease.Versions.Cloud ∧
    UniqueKeys harnessRelease.Versions.Public ∧
    (download harnessRemote harnessDirs "/tmp/download_1" harnessRelease emptyStaging).1 = none ∧
    ∀ (c : AssetClass) (path token : String), (path, token) ∈ harnessRelease.Versions.get c →
      ∃ payload, harnessRemote.fetch c path token = Except.ok payload ∧
        (download harnessRemote harnessDirs "/tmp/download_1" harnessRelease emptyStaging).2.files
          (filePath "/tmp/download_1" (classSubdir harnessDirs c) path) = some payload ∧
        (harnessRelease.Checksums.get c).lookup path = some (harnessRemote.digest payload) :=
  ⟨by decide, by decide, by decide, by decide,
    download_success_staged harnessRemote harnessDirs "/tmp/download_1" harnessRelease
      emptyStaging (by decide) (by decide) (by decide) (by decide)⟩

/-- C8: for every manifest (its maps having pairwise different keys) and every scratch
directory apart from the project root, a successful `moveFiles` leaves, for each
(class, path) of `manifest.versions`, a file at `<projectRoot>/<classSubdir>/<path>` whose
bytes are the bytes the file `scratch/<classSubdir>/<path>` held before the call, with
`CloudDir` for cloud assets and `HostingDir` for public assets. -/
theorem moveFiles_success_installed (os : Refusals) (k : Dirs) (root scratch : String)
    (release : deployInfo) (fs : FileSystem) (hk : DirsOk k)
    (hC : UniqueKeys release.Versions.Cloud) (hP : UniqueKeys release.Versions.Public)
    (hap : Apart scratch root)
    (hok : (moveFiles os k root scratch release fs).1 = none) :
    ∀ (c : AssetClass) (path token : String), (path, token) ∈ release.Versions.get c →
      ∃ b, fs (filePath scratch (classSubdir k c) path) = some b ∧
        (moveFiles os k root scratch release fs).2 (filePath root (classSubdir k c) path)
          = some b := by
  intro c path token hmem
  exact installAll_ok os k scratch root (target_apart k scratch root hap)
    (entries release.Versions) fs
    (entries_targets_nodup k scratch hk release.Versions hC hP)
    (entries_targets_nodup k root hk release.Versions hC hP) hok
    (c, path, token) ((mem_entries release.Versions c path token).mpr hmem)

/-- Witness of C8: the install of `TestDownloadMoveFiles`. -/
theorem moveFiles_success_installed_witness :
    DirsOk harnessDirs ∧ UniqueKeys harnessRelease.Versions.Cloud ∧
    UniqueKeys harnessRelease.Versions.Public ∧ Apart "/tmp/move_files_1" "/project" ∧
    (moveFiles noRefusals harnessDirs "/project" "/tmp/move_files_1" harnessRelease
      movedScratch).1 = none ∧
    ∀ (c : AssetClass) (path token : String), (path, token) ∈ harnessRelease.Versions.get c →
      ∃ b, movedScratch (filePath "/tmp/move_files_1" (classSubdir harnessDirs c) path)
          = some b ∧
        (moveFiles noRefusals harnessDirs "/project" "/tmp/move_files_1" harnessRelease
          movedScratch).2 (filePath "/project" (classSubdir harnessDirs c) path) = some b :=
  ⟨by decide, by decide, by decide, by decide, by decide,
    moveFiles_success_installed noRefusals harnessDirs "/project" "/tmp/move_files_1"
      harnessRelease movedScratch (by decide) (by decide) (by decide) (by decide) (by decide)⟩

theorem downloadEntry_written (R : Remote) (k : Dirs) (scratch : String)
    (checksums : deployFileData) (en : Entry) (s : Staging) (payload : List Nat)
    (hf : R.fetch en.1 en.2.1 en.2.2 = Except.ok payload) :
    (downloadEntry R k scratch checksums en s).2.written
      = s.written ++ [target k scratch en] := by
  unfold downloadEntry
  rw [hf]
  simp only
  cases (checksums.get en.1).lookup en.2.1 with
  | none => rfl
  | some sum =>
    simp only
    split <;> rfl

theorem verdict_none_fetch (R : Remote) (checksums : deployFileData) (en : Entry)
    (h : verdict R checksums en = none) :
    ∃ payload, R.fetch en.1 en.2.1 en.2.2 = Except.ok payload := by
  unfold verdict at h
  cases hf : R.fetch en.1 en.2.1 en.2.2 with
  | error msg => rw [hf] at h; cases h
  | ok payload => exact ⟨payload, rfl⟩

theorem downloadAll_pass (R : Remote) (k : Dirs) (scratch : String)
    (checksums : deployFileData) :
    ∀ (l : List Entry) (s : Staging), (∀ e ∈ l, verdict R checksums e = none) →
      (downloadAll R k scratch checksums l s).1 = none ∧
      (downloadAll R k scratch checksums l s).2.fetched = s.fetched ++ l := by
  intro l
  induction l with
  | nil => intro s _; exact ⟨rfl, by simp [downloadAll]⟩
  | cons e0 rest ih =>
    intro s h
    obtain ⟨h1, h2, _⟩ := downloadEntry_log R k scratch checksums e0 s
    rw [h e0 (List.mem_cons_self _ _)] at h1
    unfold downloadAll
    rcases hd : downloadEntry R k scratch checksums e0 s with ⟨_ | err, s1⟩
    · rw [hd] at h2
      simp only at h2 ⊢
      obtain ⟨i1, i2⟩ := ih s1 (fun e he => h e (List.mem_cons_of_mem _ he))
      refine ⟨i1, ?_⟩
      rw [i2, h2]
      simp
    · rw [hd] at h1
      cases h1

theorem downloadAll_stop (R : Remote) (k : Dirs) (scratch : String)
    (checksums : deployFileData) (en : Entry) (post : List Entry) (err : DeployError)
    (payload : List Nat) (hen : verdict R checksums en = some err)
    (hf : R.fetch en.1 en.2.1 en.2.2 = Except.ok payload) :
    ∀ (pre : List Entry) (s : Staging), (∀ e ∈ pre, verdict R checksums e = none) →
      (downloadAll R k scratch checksums (pre ++ en :: post) s).1 = some err ∧
      (downloadAll R k scratch checksums (pre ++ en :: post) s).2.fetched
        = s.fetched ++ (pre ++ [en]) ∧
      (downloadAll R k scratch checksums (pre ++ en :: post) s).2.written
        = s.written ++ (pre ++ [en]).map (target k scratch) := by
  intro pre
  induction pre with
  | nil =>
    intro s _
    obtain ⟨h1, h2, _⟩ := downloadEntry_log R k scratch checksums en s
    have h3 := downloadEntry_written R k scratch checksums en s payload hf
    rw [hen] at h1
    simp only [List.nil_append]
    unfold downloadAll
    rcases hd : downloadEntry R k scratch checksums en s with ⟨_ | e1, s1⟩
    · rw [hd] at h1
      cases h1
    · rw [hd] at h1 h2 h3
      simp only at h1 h2 h3 ⊢
      refine ⟨h1, h2, ?_⟩
      rw [h3]
      rfl
  | cons e0 pre ih =>
    intro s h
    obtain ⟨h1, h2, _⟩ := downloadEntry_log R k scratch checksums e0 s
    obtain ⟨p0, hf0⟩ := verdict_none_fetch R checksums e0 (h e0 (List.mem_cons_self _ _))
    have h3 := downloadEntry_written R k scratch checksums e0 s p0 hf0
    rw [h e0 (List.mem_cons_self _ _)] at h1
    simp only [List.cons_append]
    unfold downloadAll
    rcases hd : downloadEntry R k scratch checksums e0 s with ⟨_ | e1, s1⟩
    · rw [hd] at h2 h3
      simp only at h2 h3 ⊢
      obtain ⟨i1, i2, i3⟩ := ih s1 (fun e he => h e (List.mem_cons_of_mem _ he))
      refine ⟨i1, ?_, ?_⟩
      · rw [i2, h2]
        simp
      · rw [i3, h3]
        simp
    · rw [hd] at h1
      cases h1

theorem apart_under (a b name : String) (hab : Apart a b) (h : under a name) :
    ¬ under b name := by
  intro hb
  unfold under at h hb
  rcases List.prefix_or_prefix_of_prefix h hb with h3 | h3
  · exact hab.1 h3
  · exact hab.2 h3

/-- C9: for every manifest with a path whose fetched payload has a digest different from
`checksums[class][path]` (the download fetches that path, or every other entry of the
manifest passes, the single mismatched checksum of the spec), `download` fails with
`ChecksumMismatch` for that path and so never returns success; it stops there: the
fetches issued and the files written are those of the entries ranged over up to and
including the mismatching one, no later entry is fetched or written; and it writes
nothing under the destination project root, the scratch directory lying apart from it. -/
theorem download_mismatch_fails (R : Remote) (k : Dirs) (scratch root : String)
    (release : deployInfo) (s : Staging) (c : AssetClass) (path token : String)
    (payload : List Nat) (sum : String)
    (hmem : (path, token) ∈ release.Versions.get c)
    (hpay : R.fetch c path token = Except.ok payload)
    (hsum : (release.Checksums.get c).lookup path = some sum)
    (hne : R.digest payload ≠ sum)
    (hreach : ((c, path, token) ∈ (download R k scratch release s).2.fetched ∧
        (c, path, token) ∉ s.fetched) ∨
      ∀ e ∈ entries release.Versions, e ≠ (c, path, token) →
        verdict R release.Checksums e = none)
    (hap : Apart scratch root) :
    (download R k scratch release s).1 = some (DeployError.ChecksumMismatch c path) ∧
    (download R k scratch release s).1 ≠ none ∧
    (∃ pre post, entries release.Versions = pre ++ (c, path, token) :: post ∧
      (∀ e ∈ pre, verdict R release.Checksums e = none) ∧
      (download R k scratch release s).2.fetched = s.fetched ++ (pre ++ [(c, path, token)]) ∧
      (download R k scratch release s).2.written
        = s.written ++ (pre ++ [(c, path, token)]).map (target k scratch)) ∧
    (∀ n ∈ (download R k scratch release s).2.written, n ∈ s.written ∨ ¬ under root n) ∧
    ∀ name, under root name →
      (download R k scratch release s).2.files name = s.files name := by
  have hv : verdict R release.Checksums (c, path, token)
      = some (DeployError.ChecksumMismatch c path) := by
    simp [verdict, hpay, hsum, hne]
  have hin : (c, path, token) ∈ entries release.Versions :=
    (mem_entries release.Versions c path token).mpr hmem
  have hex : ∃ e ∈ entries release.Versions, verdict R release.Checksums e ≠ none :=
    ⟨_, hin, by rw [hv]; simp⟩
  obtain ⟨pre, en, post, err, hsplit, hpre, hen, _, hfe, _⟩ :=
    downloadAll_fail R k scratch release.Checksums (entries release.Versions) s hex
  -- the entry the download stops at is the mismatching one
  have heq : en = (c, path, token) := by
    rcases hreach with ⟨hf1, hf2⟩ | hsingle
    · have hf3 : (c, path, token) ∈ s.fetched ++ (pre ++ [en]) := by
        rw [← hfe]
        exact hf1
      rcases List.mem_append.mp hf3 with h | h
      · exact absurd h hf2
      · rcases List.mem_append.mp h with h | h
        · have := hpre _ h
          rw [hv] at this
          cases this
        · exact (List.mem_singleton.mp h).symm
    · by_contra hne1
      have hmem1 : en ∈ entries release.Versions := by
        rw [hsplit]
        simp
      have := hsingle en hmem1 hne1
      rw [hen] at this
      cases this
  subst heq
  have hfetch : R.fetch (c, path, token).1 (c, path, token).2.1 (c, path, token).2.2
      = Except.ok payload := hpay
  obtain ⟨r1, r2, r3⟩ := downloadAll_stop R k scratch release.Checksums (c, path, token) post
    _ payload hv hfetch pre s hpre
  have hd : download R k scratch release s
      = downloadAll R k scratch release.Checksums (pre ++ (c, path, token) :: post) s := by
    unfold download
    rw [hsplit]
  rw [hd]
  refine ⟨r1, by rw [r1]; simp, ⟨pre, post, hsplit, hpre, r2, r3⟩, ?_, ?_⟩
  · intro n hn
    rw [r3] at hn
    rcases List.mem_append.mp hn with h | h
    · exact Or.inl h
    · right
      obtain ⟨e, _, he⟩ := List.mem_map.mp h
      rw [← he]
      exact fun hu => apart_under scratch root _ hap (under_target k scratch e) hu
  · intro name hname
    exact downloadAll_outside R k scratch release.Checksums _ s name
      (fun hu => apart_under scratch root name hap hu hname)

/-- Witness of C9: the release of the harness with a wrong checksum for `index.html`. -/
theorem download_mismatch_fails_witness :
    ("index.html", "version") ∈ badIndexRelease.Versions.get AssetClass.Public ∧
    harnessRemote.fetch AssetClass.Public "index.html" "version"
      = Except.ok [1, 1, 2, 3, 5, 8, 13] ∧
    (badIndexRelease.Checksums.get AssetClass.Public).lookup "index.html"
      = some "9a0364b9e99bb480dd25e1f0284c8555" ∧
    harnessRemote.digest [1, 1, 2, 3, 5, 8, 13] ≠ "9a0364b9e99bb480dd25e1f0284c8555" ∧
    ((AssetClass.Public, "index.html", "version") ∈
        (download harnessRemote harnessDirs "/tmp/download_1" badIndexRelease
          emptyStaging).2.fetched ∧
      (AssetClass.Public, "index.html", "version") ∉ emptyStaging.fetched) ∧
    Apart "/tmp/download_1" "/project" ∧
    (download harnessRemote harnessDirs "/tmp/download_1" badIndexRelease emptyStaging).1
      = some (DeployError.ChecksumMismatch AssetClass.Public "index.html") ∧
    (download harnessRemote harnessDirs "/tmp/download_1" badIndexRelease emptyStaging).2.written
      = ["/tmp/download_1/cloud/main.js", "/tmp/download_1/public/index.html"] ∧
    ∀ name, under "/project" name →
      (download harnessRemote harnessDirs "/tmp/download_1" badIndexRelease
        emptyStaging).2.files name = emptyStaging.files name :=
  ⟨by decide, rfl, by decide, by decide, by decide, by decide,
    (download_mismatch_fails harnessRemote harnessDirs "/tmp/download_1" "/project"
      badIndexRelease emptyStaging AssetClass.Public "index.html" "version"
      [1, 1, 2, 3, 5, 8, 13] "9a0364b9e99bb480dd25e1f0284c8555" (by decide) rfl (by decide)
      (by decide) (Or.inl (by decide)) (by decide)).1,
    by decide,
    (download_mismatch_fails harnessRemote harnessDirs "/tmp/download_1" "/project"
      badIndexRelease emptyStaging AssetClass.Public "index.html" "version"
      [1, 1, 2, 3, 5, 8, 13] "9a0364b9e99bb480dd25e1f0284c8555" (by decide) rfl (by decide)
      (by decide) (Or.inl (by decide)) (by decide)).2.2.2.2⟩

end ParseCli
